import Mathlib

/-!
Verification of the inter-agent coordination core of the homelab-dashboard
repository: the message envelope codec, the agent registry, the dispatcher
and the chain-workflow executor, as implemented in
src/matrix/bot/agents/base_agent.py and
src/matrix/bot/agents/orchestrator_agent.py.

The Python stdlib collaborators are modelled as follows: JSON payloads are
the inductive type Json below (numbers restricted to integers, floats are
outside the modelled domain), json.dumps is printJson (standard separators,
non-ASCII characters left unescaped) and json.loads is loads; datetime
instants are microsecond counts, with isoformat / fromisoformat modelled as
the decimal rendering of the count and its (total, left-inverse) reader,
which preserves the two properties the code relies on: the rendering is
injective with a total left inverse, and subtraction of instants gives the
elapsed time.
-/

namespace HomelabAgents

/-- JSON values as exchanged on the wire (numbers restricted to integers). -/
inductive Json where
  | null : Json
  | bool : Bool → Json
  | num : Int → Json
  | str : String → Json
  | arr : List Json → Json
  | obj : List (String × Json) → Json
deriving Repr

mutual

/-- Structural size of a JSON value, used as a fuel bound for the reader. -/
def jsize : Json → Nat
  | .obj kvs => 1 + jsizeObj kvs
  | .arr xs => 1 + jsizeArr xs
  | .str _ => 1
  | .num _ => 1
  | .bool _ => 1
  | .null => 1

/-- Size of an array body. -/
def jsizeArr : List Json → Nat
  | x :: xs => 1 + jsize x + jsizeArr xs
  | [] => 0

/-- Size of an object body. -/
def jsizeObj : List (String × Json) → Nat
  | (_, v) :: kvs => 1 + jsize v + jsizeObj kvs
  | [] => 0

end

/-- Decimal digit character (0-9). -/
def digitCh : Nat → Char
  | 0 => '0' | 1 => '1' | 2 => '2' | 3 => '3' | 4 => '4'
  | 5 => '5' | 6 => '6' | 7 => '7' | 8 => '8' | _ => '9'

/-- Lowercase hexadecimal digit character (0-15). -/
def hexCh : Nat → Char
  | 0 => '0' | 1 => '1' | 2 => '2' | 3 => '3' | 4 => '4'
  | 5 => '5' | 6 => '6' | 7 => '7' | 8 => '8' | 9 => '9'
  | 10 => 'a' | 11 => 'b' | 12 => 'c' | 13 => 'd' | 14 => 'e' | _ => 'f'

/-- Decimal rendering worker: the fuel only bounds the recursion depth
(any fuel at least the value itself is enough). -/
def natDigitsGo : Nat → Nat → List Char
  | 0, n => [digitCh n]
  | f + 1, n =>
    if n < 10 then [digitCh n]
    else natDigitsGo f (n / 10) ++ [digitCh (n % 10)]

/-- Decimal rendering of a natural number, most significant digit first. -/
def natDigits (n : Nat) : List Char := natDigitsGo n n

/-- Escape one character of a JSON string the way json.dumps does
(quote, backslash and the named control shortcuts, other control
characters as a lowercase \u00xx sequence, everything else literal). -/
def escCh (c : Char) : List Char :=
  if c = '"' then ['\\', '"']
  else if c = '\\' then ['\\', '\\']
  else if c = '\n' then ['\\', 'n']
  else if c = '\t' then ['\\', 't']
  else if c = '\r' then ['\\', 'r']
  else if c = '\x08' then ['\\', 'b']
  else if c = '\x0c' then ['\\', 'f']
  else if c.toNat < 32 then
    ['\\', 'u', '0', '0', hexCh (c.toNat / 16), hexCh (c.toNat % 16)]
  else [c]

/-- Render a JSON string literal, including the surrounding quotes. -/
def printStr (s : String) : List Char :=
  '"' :: (s.data.flatMap escCh) ++ ['"']

/-- Render a JSON integer. -/
def printNum (n : Int) : List Char :=
  if n < 0 then '-' :: natDigits n.natAbs else natDigits n.natAbs

mutual

/-- Render a JSON value the way json.dumps does with default separators. -/
def printJson : Json → List Char
  | .null => 'n' :: 'u' :: ['l', 'l']
  | .bool true => 't' :: 'r' :: ['u', 'e']
  | .bool false => 'f' :: 'a' :: ['l', 's', 'e']
  | .num n => printNum n
  | .str s => printStr s
  | .arr xs => '[' :: printArr xs ++ [']']
  | .obj kvs => '{' :: printObj kvs ++ ['}']

/-- Render the body of a JSON array. -/
def printArr : List Json → List Char
  | x :: xs => printJson x ++ printArrTail xs
  | [] => []

/-- Render the tail of a JSON array body (", "-separated). -/
def printArrTail : List Json → List Char
  | x :: xs => ',' :: ' ' :: printJson x ++ printArrTail xs
  | [] => []

/-- Render the body of a JSON object. -/
def printObj : List (String × Json) → List Char
  | (k, v) :: kvs => printStr k ++ ':' :: ' ' :: printJson v ++ printObjTail kvs
  | [] => []

/-- Render the tail of a JSON object body (", "-separated). -/
def printObjTail : List (String × Json) → List Char
  | (k, v) :: kvs =>
    ',' :: ' ' :: printStr k ++ ':' :: ' ' :: printJson v ++ printObjTail kvs
  | [] => []

end

/-- Serialize a JSON value to a string (model of json.dumps). -/
def dumps (j : Json) : String := String.mk (printJson j)

/-- JSON whitespace. -/
def isWsCh (c : Char) : Bool :=
  c = ' ' || c = '\t' || c = '\n' || c = '\r'

/-- Drop leading JSON whitespace. -/
def skipWs : List Char → List Char
  | [] => []
  | c :: rest => if isWsCh c then skipWs rest else c :: rest

/-- Consume an expected literal sequence of characters. -/
def stripPre : List Char → List Char → Option (List Char)
  | [], l => some l
  | _ :: _, [] => none
  | p :: ps, c :: cs => if c = p then stripPre ps cs else none

/-- Value of a hexadecimal digit character, if it is one. -/
def hexVal (c : Char) : Option Nat :=
  if '0' ≤ c ∧ c ≤ '9' then some (c.toNat - 48)
  else if 'a' ≤ c ∧ c ≤ 'f' then some (c.toNat - 87)
  else if 'A' ≤ c ∧ c ≤ 'F' then some (c.toNat - 55)
  else none

/-- Read the body of a JSON string literal after the opening quote,
accumulating decoded characters in reverse.  Raw control characters are
rejected (json.loads strict mode); the escapes are the JSON ones. -/
def readStr (acc : List Char) : List Char → Option (String × List Char)
  | [] => none
  | c :: rest =>
    if c = '"' then some (String.mk acc.reverse, rest)
    else if c = '\\' then
      match rest with
      | [] => none
      | e :: rest2 =>
        if e = '"' then readStr ('"' :: acc) rest2
        else if e = '\\' then readStr ('\\' :: acc) rest2
        else if e = '/' then readStr ('/' :: acc) rest2
        else if e = 'n' then readStr ('\n' :: acc) rest2
        else if e = 't' then readStr ('\t' :: acc) rest2
        else if e = 'r' then readStr ('\r' :: acc) rest2
        else if e = 'b' then readStr ('\x08' :: acc) rest2
        else if e = 'f' then readStr ('\x0c' :: acc) rest2
        else if e = 'u' then
          match rest2 with
          | h1 :: h2 :: h3 :: h4 :: rest3 =>
            match hexVal h1, hexVal h2, hexVal h3, hexVal h4 with
            | some a, some b, some c2, some d =>
              let n := ((a * 16 + b) * 16 + c2) * 16 + d
              if h : n.isValidChar then readStr (Char.ofNatAux n h :: acc) rest3
              else none
            | _, _, _, _ => none
          | _ => none
        else none
    else if c.toNat < 32 then none
    else readStr (c :: acc) rest

/-- Greedily accumulate decimal digits. -/
def takeDigits (acc : Nat) : List Char → Nat × List Char
  | [] => (acc, [])
  | c :: rest =>
    if c.isDigit then takeDigits (acc * 10 + (c.toNat - 48)) rest
    else (acc, c :: rest)

/-- Read a nonempty run of decimal digits. -/
def readNat : List Char → Option (Nat × List Char)
  | [] => none
  | c :: rest =>
    if c.isDigit then some (takeDigits (c.toNat - 48) rest) else none

mutual

/-- Fueled recursive-descent JSON value reader (model of json.loads). -/
def readValue : Nat → List Char → Option (Json × List Char)
  | 0, _ => none
  | fuel + 1, input =>
    match skipWs input with
    | [] => none
    | c :: rest =>
      if c = 'n' then (stripPre ['u', 'l', 'l'] rest).map (fun r => (.null, r))
      else if c = 't' then (stripPre ['r', 'u', 'e'] rest).map (fun r => (.bool true, r))
      else if c = 'f' then (stripPre ['a', 'l', 's', 'e'] rest).map (fun r => (.bool false, r))
      else if c = '"' then (readStr [] rest).map (fun (s, r) => (.str s, r))
      else if c = '[' then
        match skipWs rest with
        | [] => none
        | d :: r =>
          if d = ']' then some (.arr [], r)
          else
            match readValue fuel (d :: r) with
            | none => none
            | some (v, r3) => readArrTail fuel [v] r3
      else if c = '{' then
        match skipWs rest with
        | [] => none
        | d :: r =>
          if d = '}' then some (.obj [], r)
          else readMember fuel [] (d :: r)
      else if c = '-' then
        (readNat rest).map (fun (n, r) => (.num (-(n : Int)), r))
      else if c.isDigit then
        (readNat (c :: rest)).map (fun (n, r) => (.num (n : Int), r))
      else none

/-- Read the continuation of a JSON array after at least one element. -/
def readArrTail : Nat → List Json → List Char → Option (Json × List Char)
  | 0, _, _ => none
  | fuel + 1, acc, input =>
    match skipWs input with
    | [] => none
    | d :: r =>
      if d = ']' then some (.arr acc.reverse, r)
      else if d = ',' then
        match readValue fuel r with
        | none => none
        | some (v, r2) => readArrTail fuel (v :: acc) r2
      else none

/-- Read one key-value member of a JSON object and continue. -/
def readMember : Nat → List (String × Json) → List Char → Option (Json × List Char)
  | 0, _, _ => none
  | fuel + 1, acc, input =>
    match skipWs input with
    | [] => none
    | d :: r =>
      if d = '"' then
        match readStr [] r with
        | none => none
        | some (k, r2) =>
          match skipWs r2 with
          | [] => none
          | e :: r3 =>
            if e = ':' then
              match readValue fuel r3 with
              | none => none
              | some (v, r4) => readObjTail fuel ((k, v) :: acc) r4
            else none
      else none

/-- Read the continuation of a JSON object after at least one member. -/
def readObjTail : Nat → List (String × Json) → List Char → Option (Json × List Char)
  | 0, _, _ => none
  | fuel + 1, acc, input =>
    match skipWs input with
    | [] => none
    | d :: r =>
      if d = '}' then some (.obj acc.reverse, r)
      else if d = ',' then readMember fuel acc r
      else none

end

/-- Parse a string as a single JSON document (model of json.loads):
leading and trailing whitespace allowed, the whole input must be consumed. -/
def loads (s : String) : Option Json :=
  match readValue (s.length + 1) s.data with
  | some (v, rest) => if skipWs rest = [] then some v else none
  | none => none

/-! ### Round-trip lemmas for the JSON codec -/

theorem skipWs_cons_of_not_ws {c : Char} (l : List Char) (h : isWsCh c = false) :
    skipWs (c :: l) = c :: l := by
  simp [skipWs, h]

theorem stripPre_append (pre l : List Char) : stripPre pre (pre ++ l) = some l := by
  induction pre with
  | nil => rfl
  | cons p ps ih => simp [stripPre, ih]

theorem jsize_pos (v : Json) : 1 ≤ jsize v := by
  cases v <;> simp [jsize]

theorem hexVal_hexCh : ∀ d < 16, hexVal (hexCh d) = some d := by decide

theorem digitCh_isDigit (d : Nat) : (digitCh d).isDigit = true := by
  unfold digitCh
  split <;> decide

theorem digitCh_toNat : ∀ d < 10, (digitCh d).toNat = 48 + d := by decide

theorem natDigitsGo_ne_nil (f n : Nat) : natDigitsGo f n ≠ [] := by
  cases f with
  | zero => simp [natDigitsGo]
  | succ f => unfold natDigitsGo; split <;> simp

theorem natDigits_ne_nil (n : Nat) : natDigits n ≠ [] := natDigitsGo_ne_nil n n

theorem natDigitsGo_all_digits (f : Nat) :
    ∀ n, ∀ c ∈ natDigitsGo f n, c.isDigit = true := by
  induction f with
  | zero =>
    intro n c hc
    simp only [natDigitsGo, List.mem_singleton] at hc
    subst hc
    exact digitCh_isDigit n
  | succ f ih =>
    intro n c hc
    unfold natDigitsGo at hc
    split at hc
    · simp only [List.mem_singleton] at hc
      subst hc
      exact digitCh_isDigit n
    · simp only [List.mem_append, List.mem_singleton] at hc
      rcases hc with hc | hc
      · exact ih (n / 10) c hc
      · subst hc; exact digitCh_isDigit _

theorem natDigits_all_digits (n : Nat) : ∀ c ∈ natDigits n, c.isDigit = true :=
  natDigitsGo_all_digits n n

theorem takeDigits_append (ds : List Char) (h : ∀ c ∈ ds, c.isDigit = true) :
    ∀ acc rest, takeDigits acc (ds ++ rest) =
      takeDigits (ds.foldl (fun a c => a * 10 + (c.toNat - 48)) acc) rest := by
  induction ds with
  | nil => intro acc rest; rfl
  | cons d ds ih =>
    intro acc rest
    have hd : d.isDigit = true := h d (by simp)
    simp only [List.cons_append, takeDigits, hd, if_true, List.foldl_cons]
    exact ih (fun c hc => h c (by simp [hc])) _ rest

theorem foldl_natDigitsGo (f : Nat) : ∀ n acc, n ≤ f →
    (natDigitsGo f n).foldl (fun a c => a * 10 + (c.toNat - 48)) acc =
      acc * 10 ^ (natDigitsGo f n).length + n := by
  induction f with
  | zero =>
    intro n acc h
    have hn : n = 0 := by omega
    subst hn
    simp [natDigitsGo, digitCh_toNat 0 (by omega)]
  | succ f ih =>
    intro n acc h
    unfold natDigitsGo
    split
    · rename_i h10
      simp [digitCh_toNat n h10]
    · rename_i h10
      rw [List.foldl_append, ih (n / 10) acc (by omega)]
      simp [digitCh_toNat (n % 10) (Nat.mod_lt n (by omega)), List.length_append,
        Nat.pow_succ]
      ring_nf
      omega

theorem foldl_natDigits (n : Nat) : ∀ acc,
    (natDigits n).foldl (fun a c => a * 10 + (c.toNat - 48)) acc =
      acc * 10 ^ (natDigits n).length + n :=
  fun acc => foldl_natDigitsGo n n acc (Nat.le_refl n)

/-- The continuation after a printed token never starts with a digit. -/
def restOk : List Char → Bool
  | [] => true
  | c :: _ => !c.isDigit

theorem takeDigits_stop (acc : Nat) (rest : List Char) (h : restOk rest = true) :
    takeDigits acc rest = (acc, rest) := by
  cases rest with
  | nil => rfl
  | cons c l =>
    simp only [restOk, Bool.not_eq_true'] at h
    simp [takeDigits, h]

theorem readNat_natDigits (n : Nat) (rest : List Char) (h : restOk rest = true) :
    readNat (natDigits n ++ rest) = some (n, rest) := by
  obtain ⟨d, ds, hnd⟩ : ∃ d ds, natDigits n = d :: ds := by
    cases hh : natDigits n with
    | nil => exact absurd hh (natDigits_ne_nil n)
    | cons a l => exact ⟨a, l, rfl⟩
  have hall := natDigits_all_digits n
  rw [hnd] at hall ⊢
  have hd : d.isDigit = true := hall d (by simp)
  simp only [List.cons_append, readNat, hd, if_true]
  rw [takeDigits_append ds (fun c hc => hall c (by simp [hc])) _ rest,
    takeDigits_stop _ _ h]
  have := foldl_natDigits n 0
  rw [hnd] at this
  simp only [List.foldl_cons, Nat.zero_mul, Nat.zero_add] at this ⊢
  rw [this]

theorem toNat_isValidChar (c : Char) : Nat.isValidChar c.toNat := c.valid

theorem char_ofNatAux_toNat (c : Char) (h : Nat.isValidChar c.toNat) :
    Char.ofNatAux c.toNat h = c := by
  have h2 : Char.ofNat c.toNat = Char.ofNatAux c.toNat h := by
    unfold Char.ofNat
    rw [dif_pos h]
  rw [← h2, Char.ofNat_toNat]

theorem hexVal_zeroCh : hexVal '0' = some 0 := by decide

theorem readStr_escCh (c : Char) (acc t : List Char) :
    readStr acc (escCh c ++ t) = readStr (c :: acc) t := by
  by_cases h1 : c = '"'
  · subst h1; simp only [escCh]; norm_num; rw [readStr.eq_def]; simp
  by_cases h2 : c = '\\'
  · subst h2; simp only [escCh]; norm_num; rw [readStr.eq_def]; simp
  by_cases h3 : c = '\n'
  · subst h3; simp only [escCh]; norm_num; rw [readStr.eq_def]; simp
  by_cases h4 : c = '\t'
  · subst h4; simp only [escCh]; norm_num; rw [readStr.eq_def]; simp
  by_cases h5 : c = '\r'
  · subst h5; simp only [escCh]; norm_num; rw [readStr.eq_def]; simp
  by_cases h6 : c = '\x08'
  · subst h6; simp only [escCh]; norm_num; rw [readStr.eq_def]; simp
  by_cases h7 : c = '\x0c'
  · subst h7; simp only [escCh]; norm_num; rw [readStr.eq_def]; simp
  by_cases h8 : c.toNat < 32
  · have hhi : c.toNat / 16 < 16 := by omega
    have hlo : c.toNat % 16 < 16 := by omega
    simp only [escCh, h1, h2, h3, h4, h5, h6, h7, if_neg, if_false, if_pos h8,
      if_true, List.cons_append, List.nil_append]
    show readStr acc ('\\' :: 'u' :: '0' :: '0' :: hexCh (c.toNat / 16)
      :: hexCh (c.toNat % 16) :: t) = readStr (c :: acc) t
    rw [readStr.eq_def]
    norm_num
    rw [hexVal_zeroCh, hexVal_hexCh _ hhi, hexVal_hexCh _ hlo]
    simp only [show ('\\' : Char) = '"' ↔ False from by decide,
      show ('u' : Char) = '"' ↔ False from by decide,
      show ('u' : Char) = '\\' ↔ False from by decide,
      show ('u' : Char) = '/' ↔ False from by decide,
      show ('u' : Char) = 'n' ↔ False from by decide,
      show ('u' : Char) = 't' ↔ False from by decide,
      show ('u' : Char) = 'r' ↔ False from by decide,
      show ('u' : Char) = 'b' ↔ False from by decide,
      show ('u' : Char) = 'f' ↔ False from by decide, if_false, iff_false]
    have hn : ((0 * 16 + 0) * 16 + c.toNat / 16) * 16 + c.toNat % 16 = c.toNat := by
      omega
    simp only [hn]
    rw [dif_pos (toNat_isValidChar c), char_ofNatAux_toNat]
  · simp only [escCh, if_neg h1, if_neg h2, if_neg h3, if_neg h4, if_neg h5,
      if_neg h6, if_neg h7, if_neg h8, List.cons_append, List.nil_append]
    rw [readStr.eq_def]
    simp [h1, h2, h8]

theorem readStr_flatMap (cs : List Char) : ∀ acc t,
    readStr acc (cs.flatMap escCh ++ '"' :: t) =
      some (String.mk (acc.reverse ++ cs), t) := by
  induction cs with
  | nil =>
    intro acc t
    rw [readStr.eq_def]
    simp
  | cons c cs ih =>
    intro acc t
    simp only [List.flatMap_cons, List.append_assoc]
    rw [readStr_escCh c acc _, ih (c :: acc) t]
    simp

theorem readStr_printStr_body (s : String) (t : List Char) :
    readStr [] (s.data.flatMap escCh ++ '"' :: t) = some (s, t) := by
  rw [readStr_flatMap]
  simp

theorem skipWs_cons_of_ws {c : Char} (l : List Char) (h : isWsCh c = true) :
    skipWs (c :: l) = skipWs l := by
  simp [skipWs, h]

theorem readValue_ws_cons (f : Nat) {c : Char} (input : List Char)
    (h : isWsCh c = true) : readValue f (c :: input) = readValue f input := by
  cases f with
  | zero => simp [readValue]
  | succ g =>
    simp only [readValue]
    rw [skipWs_cons_of_ws _ h]

theorem readMember_ws_cons (f : Nat) (acc : List (String × Json)) {c : Char}
    (input : List Char) (h : isWsCh c = true) :
    readMember f acc (c :: input) = readMember f acc input := by
  cases f with
  | zero => simp [readMember]
  | succ g =>
    simp only [readMember]
    rw [skipWs_cons_of_ws _ h]

theorem digit_ne (c x : Char) (h : c.isDigit = true) (hx : x.isDigit = false) :
    c ≠ x := by
  rintro rfl
  rw [h] at hx
  cases hx

theorem isWsCh_eq_false_of_digit (c : Char) (h : c.isDigit = true) :
    isWsCh c = false := by
  cases hw : isWsCh c
  · rfl
  · simp only [isWsCh, Bool.or_eq_true, decide_eq_true_eq] at hw
    rcases hw with ((rfl | rfl) | rfl) | rfl <;> simp at h

theorem natDigits_head (n : Nat) :
    ∃ d ds, natDigits n = d :: ds ∧ d.isDigit = true := by
  cases hh : natDigits n with
  | nil => exact absurd hh (natDigits_ne_nil n)
  | cons a l =>
    refine ⟨a, l, rfl, ?_⟩
    exact natDigits_all_digits n a (by rw [hh]; simp)

theorem printJson_head (v : Json) :
    ∃ c l2, printJson v = c :: l2 ∧ isWsCh c = false ∧ c ≠ ']' := by
  cases v with
  | null => refine ⟨'n', _, rfl, ?_, ?_⟩ <;> decide
  | bool b =>
    cases b
    · refine ⟨'f', _, rfl, ?_, ?_⟩ <;> decide
    · refine ⟨'t', _, rfl, ?_, ?_⟩ <;> decide
  | num n =>
    show ∃ c l2, printNum n = c :: l2 ∧ _
    unfold printNum
    split
    · refine ⟨'-', _, rfl, ?_, ?_⟩ <;> decide
    · obtain ⟨d, ds, hnd, hd⟩ := natDigits_head n.natAbs
      exact ⟨d, ds, hnd, isWsCh_eq_false_of_digit d hd,
        digit_ne d ']' hd (by decide)⟩
  | str s => refine ⟨'"', _, rfl, ?_, ?_⟩ <;> decide
  | arr xs => refine ⟨'[', _, rfl, ?_, ?_⟩ <;> decide
  | obj kvs => refine ⟨'\x7b', _, rfl, ?_, ?_⟩ <;> decide

theorem restOk_arrTail (xs : List Json) (rest : List Char) :
    restOk (printArrTail xs ++ ']' :: rest) = true := by
  cases xs <;> simp [printArrTail, restOk]

theorem restOk_objTail (kvs : List (String × Json)) (rest : List Char) :
    restOk (printObjTail kvs ++ '}' :: rest) = true := by
  cases kvs with
  | nil => simp [printObjTail, restOk]
  | cons kv kvs => cases kv; simp [printObjTail, restOk]

/-- The reader is a left inverse of the printer, given enough fuel:
the central lemma behind envelope round-trip fidelity. -/
theorem read_print (fuel : Nat) :
    (∀ v rest, jsize v < fuel → restOk rest = true →
      readValue fuel (printJson v ++ rest) = some (v, rest))
  ∧ (∀ xs acc rest, jsizeArr xs + 1 < fuel →
      readArrTail fuel acc (printArrTail xs ++ ']' :: rest) =
        some (.arr (acc.reverse ++ xs), rest))
  ∧ (∀ k v kvs acc rest, jsize v + jsizeObj kvs + 2 ≤ fuel →
      readMember fuel acc
          (printStr k ++ ':' :: ' ' :: printJson v ++ printObjTail kvs ++ '}' :: rest) =
        some (.obj (acc.reverse ++ (k, v) :: kvs), rest))
  ∧ (∀ kvs acc rest, jsizeObj kvs + 1 < fuel →
      readObjTail fuel acc (printObjTail kvs ++ '}' :: rest) =
        some (.obj (acc.reverse ++ kvs), rest)) := by
  induction fuel with
  | zero =>
    refine ⟨?_, ?_, ?_, ?_⟩
    · intro v rest h _
      have := jsize_pos v
      omega
    · intro xs acc rest h; omega
    · intro k v kvs acc rest h
      have := jsize_pos v
      omega
    · intro kvs acc rest h; omega
  | succ f ih =>
    obtain ⟨ihv, iha, ihm, iho⟩ := ih
    have hval : ∀ v rest, jsize v < f + 1 → restOk rest = true →
        readValue (f + 1) (printJson v ++ rest) = some (v, rest) := by
      intro v rest hsz hrest
      cases v with
      | null =>
        have hs : stripPre ['u', 'l', 'l'] ('u' :: 'l' :: 'l' :: rest) = some rest :=
          stripPre_append ['u', 'l', 'l'] rest
        simp only [printJson, List.cons_append, List.nil_append, readValue]
        rw [skipWs_cons_of_not_ws _ (by decide)]
        simp only []
        simp [hs]
      | bool b =>
        cases b with
        | true =>
          have hs : stripPre ['r', 'u', 'e'] ('r' :: 'u' :: 'e' :: rest) = some rest :=
            stripPre_append ['r', 'u', 'e'] rest
          simp only [printJson, List.cons_append, List.nil_append, readValue]
          rw [skipWs_cons_of_not_ws _ (by decide)]
          simp only []
          simp [hs]
        | false =>
          have hs : stripPre ['a', 'l', 's', 'e'] ('a' :: 'l' :: 's' :: 'e' :: rest) =
              some rest := stripPre_append ['a', 'l', 's', 'e'] rest
          simp only [printJson, List.cons_append, List.nil_append, readValue]
          rw [skipWs_cons_of_not_ws _ (by decide)]
          simp only []
          simp [hs]
      | num n =>
        have hrn := readNat_natDigits n.natAbs rest hrest
        show readValue (f + 1) (printNum n ++ rest) = _
        unfold printNum
        split
        · rename_i hneg
          simp only [List.cons_append, readValue]
          rw [skipWs_cons_of_not_ws _ (by decide)]
          simp only []
          simp [hrn, -Int.natCast_natAbs]
          omega
        · rename_i hpos
          obtain ⟨d, ds, hnd, hd⟩ := natDigits_head n.natAbs
          rw [hnd] at hrn ⊢
          simp only [List.cons_append, readValue]
          rw [skipWs_cons_of_not_ws _ (isWsCh_eq_false_of_digit d hd)]
          simp only []
          rw [List.cons_append] at hrn
          simp [digit_ne d 'n' hd (by decide), digit_ne d 't' hd (by decide),
            digit_ne d 'f' hd (by decide), digit_ne d '"' hd (by decide),
            digit_ne d '[' hd (by decide), digit_ne d '{' hd (by decide),
            digit_ne d '-' hd (by decide), hd, hrn, -Int.natCast_natAbs]
          omega
      | str s =>
        show readValue (f + 1) (printStr s ++ rest) = _
        simp only [printStr, List.cons_append, List.append_assoc, List.nil_append,
          readValue]
        rw [skipWs_cons_of_not_ws _ (by decide)]
        simp only []
        simp only [show (('"' : Char) = 'n') = False from by simp,
          show (('"' : Char) = 't') = False from by simp,
          show (('"' : Char) = 'f') = False from by simp,
          show (('"' : Char) = '"') = True from by simp,
          if_false, if_true]
        rw [readStr_printStr_body s rest]
        simp
      | arr xs =>
        cases xs with
        | nil =>
          simp only [printJson, printArr, List.nil_append, List.cons_append, readValue]
          rw [skipWs_cons_of_not_ws _ (by decide)]
          simp only []
          rw [skipWs_cons_of_not_ws _ (by decide)]
          simp
        | cons x xs2 =>
          have hx : jsize x < f := by
            have h1 := jsize_pos x
            simp only [jsize, jsizeArr] at hsz
            omega
          have hxs : jsizeArr xs2 + 1 < f := by
            have h1 := jsize_pos x
            simp only [jsize, jsizeArr] at hsz
            omega
          obtain ⟨c0, l0, hc0, hws0, hnb0⟩ := printJson_head x
          have hv := ihv x (printArrTail xs2 ++ ']' :: rest) hx
            (restOk_arrTail xs2 rest)
          have ha := iha xs2 [x] rest hxs
          simp only [printJson, printArr, List.cons_append, List.append_assoc,
            List.nil_append, readValue]
          rw [skipWs_cons_of_not_ws _ (by decide)]
          simp only []
          simp only [show (('[' : Char) = 'n') = False from by simp,
            show (('[' : Char) = 't') = False from by simp,
            show (('[' : Char) = 'f') = False from by simp,
            show (('[' : Char) = '"') = False from by simp,
            show (('[' : Char) = '[') = True from by simp,
            if_false, if_true]
          rw [hc0, List.cons_append, skipWs_cons_of_not_ws _ hws0]
          simp only []
          rw [if_neg hnb0, ← List.cons_append, ← hc0]
          rw [hv]
          simp only []
          rw [ha]
          simp
      | obj kvs =>
        cases kvs with
        | nil =>
          simp only [printJson, printObj, List.nil_append, List.cons_append, readValue]
          rw [skipWs_cons_of_not_ws _ (by decide)]
          simp only []
          rw [skipWs_cons_of_not_ws _ (by decide)]
          simp
        | cons kv kvs2 =>
          obtain ⟨k, v2⟩ := kv
          have hm : jsize v2 + jsizeObj kvs2 + 2 ≤ f := by
            simp only [jsize, jsizeObj] at hsz
            omega
          have hmem := ihm k v2 kvs2 [] rest hm
          simp only [printJson, printObj, List.cons_append, List.append_assoc,
            List.nil_append, readValue]
          rw [skipWs_cons_of_not_ws _ (by decide)]
          simp only []
          simp only [show (('{' : Char) = 'n') = False from by simp,
            show (('{' : Char) = 't') = False from by simp,
            show (('{' : Char) = 'f') = False from by simp,
            show (('{' : Char) = '"') = False from by simp,
            show (('{' : Char) = '[') = False from by simp,
            show (('{' : Char) = '{') = True from by simp,
            if_false, if_true]
          simp only [printStr, List.cons_append, List.singleton_append,
            List.append_assoc, List.nil_append] at hmem ⊢
          rw [skipWs_cons_of_not_ws _ (by decide)]
          simp only []
          rw [if_neg (by decide : ¬ ('"' : Char) = '}')]
          rw [hmem]
          simp
    refine ⟨hval, ?_, ?_, ?_⟩
    · intro xs acc rest hsz
      cases xs with
      | nil =>
        simp only [printArrTail, List.nil_append, readArrTail]
        rw [skipWs_cons_of_not_ws _ (by decide)]
        simp only []
        simp
      | cons x xs2 =>
        have hx : jsize x < f := by
          have h1 := jsize_pos x
          simp only [jsizeArr] at hsz
          omega
        have hxs : jsizeArr xs2 + 1 < f := by
          have h1 := jsize_pos x
          simp only [jsizeArr] at hsz
          omega
        have hv := ihv x (printArrTail xs2 ++ ']' :: rest) hx
          (restOk_arrTail xs2 rest)
        have ha := iha xs2 (x :: acc) rest hxs
        simp only [printArrTail, List.cons_append, List.append_assoc,
          List.nil_append, readArrTail]
        rw [skipWs_cons_of_not_ws _ (by decide)]
        simp only []
        simp only [show ((',' : Char) = ']') = False from by simp,
          show ((',' : Char) = ',') = True from by simp, if_false, if_true]
        rw [readValue_ws_cons f _ (by decide)]
        rw [hv]
        simp only []
        rw [ha]
        simp
    · intro k v kvs acc rest hsz
      have hv2 : jsize v < f := by
        have h1 := jsize_pos v
        omega
      have hkvs : jsizeObj kvs + 1 < f := by
        have h1 := jsize_pos v
        omega
      have hvv := ihv v (printObjTail kvs ++ '}' :: rest) hv2
        (restOk_objTail kvs rest)
      have ho := iho kvs ((k, v) :: acc) rest hkvs
      simp only [printStr, List.cons_append, List.singleton_append,
        List.append_assoc, List.nil_append, readMember]
      rw [skipWs_cons_of_not_ws _ (by decide)]
      simp only []
      simp only [show (('"' : Char) = '"') = True from by simp, if_true]
      rw [readStr_printStr_body k]
      simp only []
      rw [skipWs_cons_of_not_ws _ (by decide)]
      simp only []
      simp only [show ((':' : Char) = ':') = True from by simp, if_true]
      rw [readValue_ws_cons f _ (by decide)]
      rw [hvv]
      simp only []
      rw [ho]
      simp
    · intro kvs acc rest hsz
      cases kvs with
      | nil =>
        simp only [printObjTail, List.nil_append, readObjTail]
        rw [skipWs_cons_of_not_ws _ (by decide)]
        simp only []
        simp
      | cons kv kvs2 =>
        obtain ⟨k, v⟩ := kv
        have hm : jsize v + jsizeObj kvs2 + 2 ≤ f := by
          simp only [jsizeObj] at hsz
          omega
        have hmem := ihm k v kvs2 acc rest hm
        simp only [printObjTail, List.cons_append, List.append_assoc,
          List.nil_append, readObjTail]
        rw [skipWs_cons_of_not_ws _ (by decide)]
        simp only []
        simp only [show ((',' : Char) = '}') = False from by simp,
          show ((',' : Char) = ',') = True from by simp, if_false, if_true]
        rw [readMember_ws_cons f acc _ (by decide)]
        simp only [List.append_assoc] at hmem
        exact hmem

theorem sizes_le_print_len (n : Nat) :
    (∀ v, jsize v ≤ n → jsize v ≤ (printJson v).length)
  ∧ (∀ xs, jsizeArr xs ≤ n → jsizeArr xs ≤ (printArrTail xs).length)
  ∧ (∀ kvs, jsizeObj kvs ≤ n → jsizeObj kvs ≤ (printObjTail kvs).length) := by
  induction n with
  | zero =>
    refine ⟨?_, ?_, ?_⟩
    · intro v h
      have := jsize_pos v
      omega
    · intro xs h
      cases xs with
      | nil => simp [jsizeArr]
      | cons x xs => simp [jsizeArr] at h
    · intro kvs h
      cases kvs with
      | nil => simp [jsizeObj]
      | cons kv kvs => obtain ⟨k, v⟩ := kv; simp [jsizeObj] at h
  | succ m ih =>
    obtain ⟨ihv, iha, iho⟩ := ih
    refine ⟨?_, ?_, ?_⟩
    · intro v hb
      cases v with
      | null => simp [jsize, printJson]
      | bool b => cases b <;> simp [jsize, printJson]
      | num n2 =>
        have hne := natDigits_ne_nil n2.natAbs
        simp only [jsize, printJson]
        unfold printNum
        split
        · simp
        · cases hh : natDigits n2.natAbs with
          | nil => exact absurd hh hne
          | cons a l => simp [hh]
      | str s => simp [jsize, printJson, printStr]
      | arr xs =>
        cases xs with
        | nil => simp [jsize, jsizeArr, printJson, printArr]
        | cons x xs2 =>
          have h1 : jsize x ≤ m := by
            have := jsize_pos x
            simp only [jsize, jsizeArr] at hb
            omega
          have h2 : jsizeArr xs2 ≤ m := by
            have := jsize_pos x
            simp only [jsize, jsizeArr] at hb
            omega
          have e1 := ihv x h1
          have e2 := iha xs2 h2
          simp only [jsize, jsizeArr, printJson, printArr, List.length_cons,
            List.length_append]
          omega
      | obj kvs =>
        cases kvs with
        | nil => simp [jsize, jsizeObj, printJson, printObj]
        | cons kv kvs2 =>
          obtain ⟨k, v⟩ := kv
          have h1 : jsize v ≤ m := by
            have := jsize_pos v
            simp only [jsize, jsizeObj] at hb
            omega
          have h2 : jsizeObj kvs2 ≤ m := by
            have := jsize_pos v
            simp only [jsize, jsizeObj] at hb
            omega
          have e1 := ihv v h1
          have e2 := iho kvs2 h2
          simp only [jsize, jsizeObj, printJson, printObj, printStr,
            List.length_cons, List.length_append]
          omega
    · intro xs hb
      cases xs with
      | nil => simp [jsizeArr]
      | cons x xs2 =>
        have h1 : jsize x ≤ m := by
          have := jsize_pos x
          simp only [jsizeArr] at hb
          omega
        have h2 : jsizeArr xs2 ≤ m := by
          have := jsize_pos x
          simp only [jsizeArr] at hb
          omega
        have e1 := ihv x h1
        have e2 := iha xs2 h2
        simp only [jsizeArr, printArrTail, List.length_cons, List.length_append]
        omega
    · intro kvs hb
      cases kvs with
      | nil => simp [jsizeObj]
      | cons kv kvs2 =>
        obtain ⟨k, v⟩ := kv
        have h1 : jsize v ≤ m := by
          have := jsize_pos v
          simp only [jsizeObj] at hb
          omega
        have h2 : jsizeObj kvs2 ≤ m := by
          have := jsize_pos v
          simp only [jsizeObj] at hb
          omega
        have e1 := ihv v h1
        have e2 := iho kvs2 h2
        simp only [jsizeObj, printObjTail, printStr, List.length_cons,
          List.length_append]
        omega

/-- Serializing any JSON value and reading it back returns the value:
the model of json.loads is a left inverse of the model of json.dumps. -/
theorem loads_dumps (v : Json) : loads (dumps v) = some v := by
  have hsz : jsize v ≤ (printJson v).length :=
    (sizes_le_print_len (jsize v)).1 v (Nat.le_refl _)
  have h2 := (read_print ((printJson v).length + 1)).1 v [] (by omega) rfl
  rw [List.append_nil] at h2
  unfold loads dumps
  rw [show (String.mk (printJson v)).length = (printJson v).length from rfl]
  rw [show (String.mk (printJson v)).data = printJson v from rfl]
  rw [h2]
  rfl

/-! ### Time instants (model of the datetime collaborator) -/

/-- A time instant, as a microsecond count.  Stands in for datetime:
the code only relies on isoformat being injective with a total left
inverse (fromisoformat) and on subtraction giving the elapsed time. -/
structure DateTime where
  micros : Nat
deriving Repr, DecidableEq

/-- Model of datetime.isoformat: an injective rendering of the instant. -/
def DateTime.iso (t : DateTime) : String := String.mk (natDigits t.micros)

/-- Model of datetime.fromisoformat: total left inverse of the rendering;
raises (returns none) on any string that is not a rendered instant. -/
def dtFromIso (s : String) : Option DateTime :=
  match readNat s.data with
  | some (n, []) => some { micros := n }
  | _ => none

theorem dtFromIso_iso (t : DateTime) : dtFromIso t.iso = some t := by
  unfold dtFromIso DateTime.iso
  rw [show (String.mk (natDigits t.micros)).data = natDigits t.micros from rfl]
  rw [show natDigits t.micros = natDigits t.micros ++ [] from by simp]
  rw [readNat_natDigits t.micros [] rfl]

/-! ### The agent message envelope (base_agent.py) -/

/-- AgentMessage: the structured envelope exchanged between agents
(dataclass AgentMessage in base_agent.py). -/
structure AgentMessage where
  id : String
  sender : String
  target : String
  message_type : String
  content : Json
  context : Json
  timestamp : DateTime
  reply_to : Option String := none
deriving Repr

/-- First value bound to a key in a JSON object rendering of a dict. -/
def jlookup (k : String) : List (String × Json) → Option Json
  | [] => none
  | (k2, v) :: rest => if k = k2 then some v else jlookup k rest

/-- AgentMessage.to_dict: the JSON object written on the wire. -/
def AgentMessage.toDict (m : AgentMessage) : Json :=
  .obj [("id", .str m.id),
        ("sender", .str m.sender),
        ("target", .str m.target),
        ("message_type", .str m.message_type),
        ("content", m.content),
        ("context", m.context),
        ("timestamp", .str m.timestamp.iso),
        ("reply_to", match m.reply_to with
                     | none => .null
                     | some r => .str r)]

/-- AgentMessage.from_dict: reads the required fields back out of a
parsed JSON document; any missing or ill-typed required field raises
(returns none), reply_to is read with .get (absent and null both map
to no reply_to). -/
def fromDict : Json → Option AgentMessage
  | .obj kvs => do
    let idj ← jlookup "id" kvs
    let sj ← jlookup "sender" kvs
    let tj ← jlookup "target" kvs
    let mtj ← jlookup "message_type" kvs
    let cj ← jlookup "content" kvs
    let cxj ← jlookup "context" kvs
    let tsj ← jlookup "timestamp" kvs
    match idj, sj, tj, mtj, tsj with
    | .str i, .str s, .str t, .str mt, .str ts => do
      let tsv ← dtFromIso ts
      let rep : Option String ←
        match jlookup "reply_to" kvs with
        | none => some none
        | some .null => some none
        | some (.str r) => some (some r)
        | some _ => none
      some { id := i, sender := s, target := t, message_type := mt,
             content := cj, context := cxj, timestamp := tsv, reply_to := rep }
    | _, _, _, _, _ => none
  | _ => none

/-- send_to_agent wire format: "@<target>: <json of the message>". -/
def encodeAgentMessage (m : AgentMessage) : String :=
  "@" ++ m.target ++ ": " ++ dumps m.toDict

/-- Python str.find for a fixed pattern: index of the first occurrence. -/
def findSub (pat : List Char) : List Char → Option Nat
  | [] => none
  | c :: rest =>
    if pat.isPrefixOf (c :: rest) then some 0
    else (findSub pat rest).map (· + 1)

/-- The separator pattern ": {" used by _is_agent_message and
_handle_agent_message to split target from payload. -/
def sepPat : List Char := [':', ' ', '{']

/-- _is_agent_message: true iff the body starts with @, contains a colon,
and the substring after the first ": {" (plus 2) parses as JSON. -/
def isAgentMessage (body : String) : Bool :=
  let bs := body.data
  if ¬ (bs.headD ' ' = '@' ∧ bs.contains ':') then false
  else
    match findSub sepPat bs with
    | none => false
    | some te => (loads (String.mk (bs.drop (te + 2)))).isSome

/-- Target and JSON part extraction of _handle_agent_message:
target = body[1:target_end], json_part = body[target_end + 2:]. -/
def extractParts (bs : List Char) : Option (String × String) :=
  (findSub sepPat bs).map (fun te =>
    (String.mk ((bs.take te).drop 1), String.mk (bs.drop (te + 2))))

/-- The decode path of the envelope codec: extraction, JSON parse and
from_dict, returning the wire target and the decoded message. -/
def decodeEnvelope (body : String) : Option (String × AgentMessage) :=
  match extractParts body.data with
  | none => none
  | some (target, jsonPart) =>
    match loads jsonPart with
    | none => none
    | some j =>
      match fromDict j with
      | none => none
      | some m => some (target, m)

/-! ### Dispatcher (base_agent.py _on_message and _handle_agent_message) -/

/-- What the dispatch of one inbound room message amounts to. -/
inductive DispatchOutcome where
  | droppedSelf : DispatchOutcome
  | ignoredOtherTarget : String → DispatchOutcome
  | handled : AgentMessage → DispatchOutcome
  | unknownType : AgentMessage → DispatchOutcome
  | decodeError : DispatchOutcome
  | userMessage : String → DispatchOutcome
deriving Repr

/-- The reply _handle_unknown_agent_message sends through reply_to_agent:
target is the original sender, the type gains a _response suffix, the
context carries reply_to = original id, the content an error field. -/
def mkUnknownReply (selfId freshId : String) (now : DateTime)
    (orig : AgentMessage) : AgentMessage :=
  { id := freshId,
    sender := selfId,
    target := orig.sender,
    message_type := orig.message_type ++ "_response",
    content := .obj [("error", .str ("Unknown message type: " ++ orig.message_type))],
    context := .obj [("reply_to", .str orig.id)],
    timestamp := now,
    reply_to := none }

/-- Handler table dispatch of _handle_agent_message: a registered handler
runs, an unregistered type is answered by the default unknown-type reply. -/
def dispatchDecoded (handlers : List String) (selfId freshId : String)
    (now : DateTime) (m : AgentMessage) : DispatchOutcome :=
  if m.message_type ∈ handlers then .handled m
  else .unknownType (mkUnknownReply selfId freshId now m)

/-- _handle_agent_message: extract target and payload, silently ignore
wire targets that are neither this agent nor the broadcast keyword,
then parse; parse or field errors are caught (decodeError). -/
def handleAgentMessage (selfId freshId : String) (now : DateTime)
    (handlers : List String) (body : String) : DispatchOutcome :=
  match extractParts body.data with
  | none => .decodeError
  | some (target, jsonPart) =>
    if target ≠ selfId ∧ target ≠ "room" then .ignoredOtherTarget target
    else
      match loads jsonPart with
      | none => .decodeError
      | some j =>
        match fromDict j with
        | none => .decodeError
        | some m => dispatchDecoded handlers selfId freshId now m

/-- _on_message: drop own events, classify the body, and route it to the
agent-message path or the plain user-message path. -/
def onMessage (selfUser selfId freshId : String) (now : DateTime)
    (handlers : List String) (sender body : String) : DispatchOutcome :=
  if sender = selfUser then .droppedSelf
  else if isAgentMessage body then
    handleAgentMessage selfId freshId now handlers body
  else .userMessage body

/-- Reply envelopes a dispatch outcome causes the runtime itself to send. -/
def outcomeReplies : DispatchOutcome → List AgentMessage
  | .unknownType r => [r]
  | _ => []

/-- The message handed to a registered handler by the outcome, if any. -/
def outcomeHandler : DispatchOutcome → Option AgentMessage
  | .handled m => some m
  | _ => none

/-! ### Agent registry and workflows (orchestrator_agent.py) -/

/-- RegisteredAgent: the registry entry for one peer agent. -/
structure RegisteredAgent where
  agent_id : String
  display_name : String
  capabilities : List String
  status : String
  last_seen : DateTime
  user_id : String := ""
deriving Repr, DecidableEq

/-- RegisteredAgent.is_online as implemented: compares the elapsed time
since last_seen (in microseconds here) against the timeout in minutes.
Note that it reads only last_seen. -/
def RegisteredAgent.is_online (a : RegisteredAgent) (now : DateTime)
    (timeout_minutes : Nat) : Bool :=
  ((now.micros : Int) - (a.last_seen.micros : Int)) <
    ((timeout_minutes : Int) * 60 * 1000000)

/-- WorkflowStep (dataclass): one stage of a chain workflow.  Data slots
hold Python values; absent (None) is modelled by Option. -/
structure WorkflowStep where
  agent_id : String
  action : String
  input_data : Option Json
  output : Option Json := none
  status : String := "pending"
  error : Option String := none
deriving Repr

/-- Workflow (dataclass). -/
structure Workflow where
  id : String
  name : String
  steps : List WorkflowStep
  requester : String
  room_id : String
  created_at : DateTime
  status : String := "pending"
  current_step : Nat := 0
deriving Repr

/-- Association list lookup keyed by string (model of dict access). -/
def alistLookup {α : Type} (k : String) : List (String × α) → Option α
  | [] => none
  | (k2, v) :: rest => if k = k2 then some v else alistLookup k rest

/-- Association list insert-or-overwrite (model of dict assignment). -/
def alistInsert {α : Type} (k : String) (v : α) : List (String × α) →
    List (String × α)
  | [] => [(k, v)]
  | (k2, v2) :: rest =>
    if k = k2 then (k, v) :: rest else (k2, v2) :: alistInsert k v rest

/-- The orchestrator state touched by the registry and workflow paths:
agents, capability map, workflow table and the system_stats counters. -/
structure OrchState where
  agents : List (String × RegisteredAgent)
  capability_map : List (String × List String)
  active_workflows : List (String × Workflow)
  messages_routed : Nat
  workflows_completed : Nat
  agents_discovered : Nat
deriving Repr

/-- A JSON array of strings, read back as a list of strings. -/
def strList : List Json → Option (List String)
  | [] => some []
  | .str s :: rest => (strList rest).map (fun l => s :: l)
  | _ :: _ => none

/-- The fields a well-formed agent_online payload carries:
agent_id, display_name, capabilities (list of strings), status. -/
def presenceInfo (content : Json) : Option (String × String × List String × String) :=
  match content with
  | .obj kvs =>
    match jlookup "agent_id" kvs, jlookup "display_name" kvs,
        jlookup "capabilities" kvs, jlookup "status" kvs with
    | some (.str aid), some (.str dn), some (.arr caps), some (.str st) =>
      (strList caps).map (fun capsL => (aid, dn, capsL, st))
    | _, _, _, _ => none
  | _ => none

/-- set.add on a capability entry: insert the agent id if absent. -/
def capAdd (aid : String) (s : List String) : List String :=
  if aid ∈ s then s else s ++ [aid]

/-- One step of the capability-map update loop of _handle_agent_online. -/
def addCapability (aid cap : String) (cm : List (String × List String)) :
    List (String × List String) :=
  match alistLookup cap cm with
  | none => alistInsert cap (capAdd aid []) cm
  | some s => alistInsert cap (capAdd aid s) cm

/-- _handle_agent_online: register or overwrite the entry, extend the
capability map, bump the discovery counter.  A payload from which the
fields cannot be read raises, is caught, and leaves the state unchanged. -/
def handleAgentOnline (m : AgentMessage) (now : DateTime) (st : OrchState) :
    OrchState :=
  match presenceInfo m.content with
  | none => st
  | some (aid, dn, capsL, status) =>
    { st with
      agents := alistInsert aid
        { agent_id := aid, display_name := dn, capabilities := capsL,
          status := status, last_seen := now, user_id := m.sender } st.agents,
      capability_map := capsL.foldl (fun cm c => addCapability aid c cm)
        st.capability_map,
      agents_discovered := st.agents_discovered + 1 }

/-- The agent_id named by an agent_offline payload, when readable. -/
def offlineTarget (m : AgentMessage) : Option String :=
  match m.content with
  | .obj kvs =>
    match jlookup "agent_id" kvs with
    | some (.str aid) => some aid
    | _ => none
  | _ => none

/-- _handle_agent_offline: flip the stored status of a registered agent
to offline; unknown agents (and unreadable payloads) leave the state
unchanged.  Nothing else is touched - in particular no counter. -/
def handleAgentOffline (m : AgentMessage) (st : OrchState) : OrchState :=
  match offlineTarget m with
  | some aid =>
    match alistLookup aid st.agents with
    | some r =>
      { st with agents :=
          alistInsert aid ({ r with status := "offline" }) st.agents }
    | none => st
  | none => st

/-! ### Chain command and workflow executor (orchestrator_agent.py) -/

/-- User-visible outcomes of the chain command handler (the canned
wording of the chat replies is a spec non-goal; we record which reply). -/
inductive ChainEvent where
  | invalidFormat : ChainEvent
  | missingMessage : ChainEvent
  | notAvailable : List String → ChainEvent
  | started : String → Nat → ChainEvent
deriving Repr, DecidableEq

/-- agent_id in self.agents and self.agents[agent_id].is_online()
(default 5-minute timeout). -/
def agentOnlineIn (st : OrchState) (aid : String) (now : DateTime) : Bool :=
  match alistLookup aid st.agents with
  | some r => r.is_online now 5
  | none => false

/-- Python str.strip leading-whitespace pass. -/
def trimLeft : List Char → List Char
  | [] => []
  | c :: r => if isWsCh c then trimLeft r else c :: r

/-- Python str.strip: drop whitespace from both ends. -/
def pyStrip (s : String) : String :=
  String.mk (trimLeft ((trimLeft s.data.reverse).reverse))

/-- Python str.split on a nonempty substring separator (worker; the fuel
only bounds the recursion depth, the input length is always enough). -/
def splitSubGo (sep : List Char) : Nat → List Char → List (List Char)
  | _, [] => [[]]
  | 0, l => [l]
  | f + 1, c :: rest =>
    if sep.isPrefixOf (c :: rest) then
      [] :: splitSubGo sep f (List.drop sep.length (c :: rest))
    else
      match splitSubGo sep f rest with
      | [] => [[c]]
      | h :: t => (c :: h) :: t

/-- Python str.split(sep) for a nonempty separator. -/
def pySplit (s sep : String) : List String :=
  (splitSubGo sep.data s.data.length s.data).map String.mk

/-- Python str.split(sep=' ', maxsplit=1). -/
def splitFirstSpace (s : String) : List String :=
  match findSub [' '] s.data with
  | none => [s]
  | some i => [String.mk (s.data.take i), String.mk (s.data.drop (i + 1))]

/-- The agents of a chain specification: "->"-split then strip. -/
def chainAgents (chainSpec : String) : List String :=
  (pySplit chainSpec "->").map pyStrip

/-- chain_spec and message of a chain command, when it parses:
drop the "chain" keyword, strip, require "->", split at the first space. -/
def chainParse (command : String) : Option (List String × String) :=
  let parts := pyStrip (command.drop 5)
  if (findSub ['-', '>'] parts.data).isNone then none
  else
    match splitFirstSpace parts with
    | [chainSpec, message] => some (chainAgents chainSpec, message)
    | _ => none

/-- The steps built by _create_chain_workflow: one per agent, action
"process", only step 0 carries the user message as input_data. -/
def mkChainSteps (message : String) : Nat → List String → List WorkflowStep
  | _, [] => []
  | i, aid :: rest =>
    { agent_id := aid, action := "process",
      input_data := if i = 0 then some (.str message) else none } ::
    mkChainSteps message (i + 1) rest

/-- _create_chain_workflow: the freshly built Workflow record. -/
def createChainWorkflow (agents : List String)
    (message requester room_id wfid : String) (now : DateTime) : Workflow :=
  { id := wfid, name := "chain_" ++ wfid, steps := mkChainSteps message 0 agents,
    requester := requester, room_id := room_id, created_at := now }

/-- _handle_chain_command: parse, validate that every listed agent is
registered and is_online, and only then insert a new Workflow into
active_workflows (execution is spawned separately). -/
def handleChainCommand (command room_id sender : String) (now : DateTime)
    (wfid : String) (st : OrchState) : OrchState × List ChainEvent :=
  let parts := pyStrip (command.drop 5)
  if (findSub ['-', '>'] parts.data).isNone then (st, [.invalidFormat])
  else
    match splitFirstSpace parts with
    | [chainSpec, message] =>
      let agents := chainAgents chainSpec
      let missing := agents.filter (fun a => ! agentOnlineIn st a now)
      if missing ≠ [] then (st, [.notAvailable missing])
      else
        let wf := createChainWorkflow agents message sender room_id wfid now
        ({ st with active_workflows := alistInsert wfid wf st.active_workflows },
         [.started wfid agents.length])
    | _ => (st, [.missingMessage])

/-- The placeholder output _execute_workflow fabricates for a step
instead of a correlated reply payload. -/
def placeholderOutput (aid : String) : Json := .str ("Output from " ++ aid)

/-- The step loop of _execute_workflow.  route i says whether routing the
i-th step's workflow_step envelope succeeds (the only failure the code
can observe).  Returns the final steps, the log of (agent, input) pairs
actually routed, and whether the loop ran to completion.  Note there is
no reply input anywhere: the code waits a fixed delay and fabricates the
output, so the result cannot depend on any reply. -/
def execLoop (route : Nat → Bool) : Nat → Option Json → List WorkflowStep →
    List WorkflowStep × List (String × Option Json) × Bool
  | _, _, [] => ([], [], true)
  | i, prevOut, s :: rest =>
    let input := if i = 0 then s.input_data else prevOut
    if route i then
      let out := placeholderOutput s.agent_id
      let res := execLoop route (i + 1) (some out) rest
      ({ s with status := "completed", output := some out } :: res.1,
       (s.agent_id, input) :: res.2.1, res.2.2)
    else
      ({ s with status := "failed", error := some "Failed to route message" } :: rest,
       [], false)

/-- _execute_workflow: run the loop over the steps, then set the final
workflow status ("completed" unless the loop set "failed"). -/
def executeWorkflow (route : Nat → Bool) (w : Workflow) :
    Workflow × List (String × Option Json) :=
  let res := execLoop route 0 none w.steps
  ({ w with steps := res.1,
            status := if res.2.2 then "completed" else "failed",
            current_step := if w.steps.isEmpty then w.current_step
                            else if res.2.2 then res.2.1.length - 1
                            else res.2.1.length },
   res.2.1)

/-! ### Envelope round-trip lemmas -/

theorem fromDict_toDict (m : AgentMessage) : fromDict m.toDict = some m := by
  obtain ⟨i, s, t, mt, co, cx, ts, r⟩ := m
  have hiso := dtFromIso_iso ts
  cases r with
  | none => simp [AgentMessage.toDict, fromDict, jlookup, hiso]
  | some r0 => simp [AgentMessage.toDict, fromDict, jlookup, hiso]

theorem findSub_inner (t rest : List Char) (h : findSub sepPat t = none) :
    findSub sepPat (t ++ ':' :: ' ' :: '{' :: rest) = some t.length := by
  induction t with
  | nil => simp [findSub, sepPat, List.isPrefixOf]
  | cons c t2 ih =>
    rw [findSub] at h
    have hpre : sepPat.isPrefixOf (c :: t2) = false := by
      by_cases hp : sepPat.isPrefixOf (c :: t2)
      · rw [if_pos hp] at h
        cases h
      · exact Bool.eq_false_iff.mpr hp
    have hrest : findSub sepPat t2 = none := by
      rw [if_neg (Bool.eq_false_iff.mp hpre)] at h
      cases hfs : findSub sepPat t2 with
      | none => rfl
      | some v => rw [hfs] at h; cases h
    have hih := ih hrest
    rw [List.cons_append, findSub]
    have hpre2 : sepPat.isPrefixOf (c :: (t2 ++ ':' :: ' ' :: '{' :: rest)) = false := by
      cases t2 with
      | nil =>
        simp [sepPat, List.isPrefixOf]
      | cons x t3 =>
        cases t3 with
        | nil =>
          simp [sepPat, List.isPrefixOf]
        | cons y t4 =>
          simp only [sepPat, List.isPrefixOf, List.cons_append] at hpre ⊢
          exact hpre
    rw [if_neg (Bool.eq_false_iff.mp hpre2), hih]
    simp

theorem findSub_wire (t rest : List Char) (h : findSub sepPat t = none) :
    findSub sepPat ('@' :: (t ++ ':' :: ' ' :: '{' :: rest)) = some (t.length + 1) := by
  rw [findSub]
  have hpre : sepPat.isPrefixOf ('@' :: (t ++ ':' :: ' ' :: '{' :: rest)) = false := by
    simp [sepPat, List.isPrefixOf]
  rw [if_neg (Bool.eq_false_iff.mp hpre), findSub_inner t rest h]
  rfl

theorem take_wire (t l : List Char) :
    (('@' :: (t ++ l)).take (t.length + 1)).drop 1 = t := by
  simp [List.take_succ_cons, List.take_left]

theorem drop_wire (t json : List Char) :
    ('@' :: (t ++ ':' :: ' ' :: json)).drop (t.length + 1 + 2) = json := by
  have : '@' :: (t ++ ':' :: ' ' :: json) = (('@' :: t) ++ [':', ' ']) ++ json := by
    simp
  rw [this]
  have hlen : (('@' :: t) ++ [':', ' ']).length = t.length + 1 + 2 := by
    simp
  rw [← hlen, List.drop_left]

theorem printJson_obj (kvs : List (String × Json)) :
    printJson (.obj kvs) = '{' :: (printObj kvs ++ ['}']) := by
  simp [printJson]

theorem encode_data (m : AgentMessage) :
    (encodeAgentMessage m).data =
      '@' :: (m.target.data ++ ':' :: ' ' :: printJson m.toDict) := by
  unfold encodeAgentMessage dumps
  rw [String.data_append, String.data_append, String.data_append]
  rw [show ("@" : String).data = ['@'] from rfl,
    show (": " : String).data = [':', ' '] from rfl,
    show (String.mk (printJson m.toDict)).data = printJson m.toDict from rfl]
  simp

theorem extractParts_wire (t json l : List Char)
    (hj : json = '{' :: l) (h : findSub sepPat t = none) :
    extractParts ('@' :: (t ++ ':' :: ' ' :: json)) =
      some (String.mk t, String.mk json) := by
  unfold extractParts
  subst hj
  rw [findSub_wire t l h]
  simp only [Option.map_some']
  rw [show ('@' :: (t ++ ':' :: ' ' :: '{' :: l)).take (t.length + 1) =
      ('@' :: (t ++ ':' :: ' ' :: '{' :: l)).take (t.length + 1) from rfl]
  congr 2
  · exact congrArg String.mk (take_wire t (':' :: ' ' :: '{' :: l))
  · exact congrArg String.mk (drop_wire t ('{' :: l))

/-- Decoding the encoded wire text of a message recovers the wire target
and all eight fields, whenever the target does not contain ": {". -/
theorem decode_encode (m : AgentMessage)
    (h : findSub sepPat m.target.data = none) :
    decodeEnvelope (encodeAgentMessage m) = some (m.target, m) := by
  have hobj : printJson m.toDict = '{' ::
      (printObj [("id", .str m.id),
        ("sender", .str m.sender),
        ("target", .str m.target),
        ("message_type", .str m.message_type),
        ("content", m.content),
        ("context", m.context),
        ("timestamp", .str m.timestamp.iso),
        ("reply_to", match m.reply_to with
                     | none => .null
                     | some r => .str r)] ++ ['}']) := by
    unfold AgentMessage.toDict
    exact printJson_obj _
  unfold decodeEnvelope
  rw [encode_data m]
  rw [extractParts_wire m.target.data (printJson m.toDict) _ hobj h]
  simp only []
  rw [show String.mk (printJson m.toDict) = dumps m.toDict from rfl, loads_dumps]
  simp only []
  rw [fromDict_toDict]

/-! ### Association list and registry lemmas -/

theorem alistLookup_insert_self {α : Type} (k : String) (v : α)
    (l : List (String × α)) : alistLookup k (alistInsert k v l) = some v := by
  induction l with
  | nil => simp [alistInsert, alistLookup]
  | cons kv rest ih =>
    obtain ⟨k2, v2⟩ := kv
    by_cases h : k = k2
    · simp [alistInsert, alistLookup, h]
    · simp [alistInsert, alistLookup, h, ih]

theorem alistLookup_insert_ne {α : Type} (k k2 : String) (v : α)
    (l : List (String × α)) (h : k ≠ k2) :
    alistLookup k (alistInsert k2 v l) = alistLookup k l := by
  induction l with
  | nil => simp [alistInsert, alistLookup, h]
  | cons kv rest ih =>
    obtain ⟨k3, v3⟩ := kv
    by_cases h2 : k2 = k3
    · subst h2
      simp [alistInsert, alistLookup, h]
    · by_cases h3 : k = k3
      · subst h3
        simp [alistInsert, alistLookup, h2, Ne.symm h2]
      · simp [alistInsert, alistLookup, h2, h3, ih]

/-- A step value with empty slots (used only as a getD default). -/
def dummyStep : WorkflowStep :=
  { agent_id := "", action := "", input_data := none }

theorem capAdd_mem (aid : String) (s : List String) :
    ∀ x ∈ s, x ∈ capAdd aid s := by
  intro x hx
  unfold capAdd
  split <;> simp [hx]

theorem addCapability_mono (aid cap c : String) (s : List String)
    (cm : List (String × List String)) (h : alistLookup c cm = some s) :
    ∃ s2, alistLookup c (addCapability aid cap cm) = some s2 ∧ ∀ x ∈ s, x ∈ s2 := by
  unfold addCapability
  by_cases hc : c = cap
  · subst hc
    rw [h]
    exact ⟨capAdd aid s, alistLookup_insert_self c (capAdd aid s) cm, capAdd_mem aid s⟩
  · cases hl : alistLookup cap cm with
    | none =>
      refine ⟨s, ?_, fun x hx => hx⟩
      rw [alistLookup_insert_ne c cap _ cm hc]
      exact h
    | some s3 =>
      refine ⟨s, ?_, fun x hx => hx⟩
      rw [alistLookup_insert_ne c cap _ cm hc]
      exact h

theorem foldl_addCapability_mono (aid : String) (caps : List String) :
    ∀ (cm : List (String × List String)) (c : String) (s : List String),
    alistLookup c cm = some s →
    ∃ s2, alistLookup c (caps.foldl (fun m2 cp => addCapability aid cp m2) cm) =
        some s2 ∧ ∀ x ∈ s, x ∈ s2 := by
  induction caps with
  | nil => intro cm c s h; exact ⟨s, h, fun x hx => hx⟩
  | cons cp caps ih =>
    intro cm c s h
    obtain ⟨s1, h1, hsub1⟩ := addCapability_mono aid cp c s cm h
    obtain ⟨s2, h2, hsub2⟩ := ih (addCapability aid cp cm) c s1 h1
    exact ⟨s2, h2, fun x hx => hsub2 x (hsub1 x hx)⟩

/-! ### Workflow executor lemmas -/

theorem execLoop_spec (steps : List WorkflowStep) : ∀ (route : Nat → Bool)
    (i : Nat) (prev : Option Json) steps2 log ok,
    execLoop route i prev steps = (steps2, log, ok) →
    steps2.length = steps.length
    ∧ log.length ≤ steps.length
    ∧ log.map Prod.fst = (steps.map WorkflowStep.agent_id).take log.length
    ∧ (ok = true → log.length = steps.length)
    ∧ (ok = false → log.length < steps.length)
    ∧ (∀ j, j < log.length → (steps2.getD j dummyStep).status = "completed"
        ∧ (steps2.getD j dummyStep).output =
            some (placeholderOutput ((steps2.getD j dummyStep).agent_id)))
    ∧ (ok = false → (steps2.getD log.length dummyStep).status = "failed"
        ∧ ∀ j, log.length < j → steps2.getD j dummyStep = steps.getD j dummyStep)
    ∧ (∀ k, k < log.length → (log.getD k ("", none)).2 =
        (if k = 0 then (if i = 0 then (steps.getD 0 dummyStep).input_data else prev)
         else (steps2.getD (k - 1) dummyStep).output)) := by
  induction steps with
  | nil =>
    intro route i prev steps2 log ok h
    simp only [execLoop, Prod.mk.injEq] at h
    obtain ⟨h1, h2, h3⟩ := h
    subst h1; subst h2; subst h3
    refine ⟨rfl, by simp, by simp, fun _ => rfl, by simp, by simp, ?_, by simp⟩
    intro hf
    cases hf
  | cons s rest ih =>
    intro route i prev steps2 log ok h
    simp only [execLoop] at h
    by_cases hr : route i = true
    · rw [if_pos hr] at h
      rcases hE : execLoop route (i + 1) (some (placeholderOutput s.agent_id)) rest
        with ⟨steps2r, logr, okr⟩
      rw [hE] at h
      simp only [Prod.mk.injEq] at h
      obtain ⟨h1, h2, h3⟩ := h
      subst h1; subst h2; subst h3
      obtain ⟨e1, e2, e3, e4, e5, e6, e7, e8⟩ :=
        ih route (i + 1) (some (placeholderOutput s.agent_id)) steps2r logr okr hE
      refine ⟨?_, ?_, ?_, ?_, ?_, ?_, ?_, ?_⟩
      · simp [e1]
      · simp only [List.length_cons]
        omega
      · simp only [List.map_cons, List.length_cons, List.take_succ_cons,
          List.cons.injEq]
        simpa using e3
      · intro hok
        simp only [List.length_cons, e4 hok]
      · intro hok
        have := e5 hok
        simp only [List.length_cons]
        omega
      · intro j hj
        cases j with
        | zero => simp [List.getD_cons_zero]
        | succ j2 =>
          simp only [List.length_cons] at hj
          have := e6 j2 (by omega)
          simpa [List.getD_cons_succ] using this
      · intro hok
        obtain ⟨f1, f2⟩ := e7 hok
        constructor
        · simpa [List.getD_cons_succ, List.length_cons] using f1
        · intro j hj
          cases j with
          | zero => omega
          | succ j2 =>
            simp only [List.length_cons] at hj
            have := f2 j2 (by omega)
            simpa [List.getD_cons_succ] using this
      · intro k hk
        cases k with
        | zero =>
          simp [List.getD_cons_zero]
        | succ k2 =>
          simp only [List.length_cons] at hk
          have := e8 k2 (by omega)
          simp only [List.getD_cons_succ, Nat.succ_sub_one]
          rw [this]
          cases k2 with
          | zero => simp [List.getD_cons_zero]
          | succ k3 => simp [List.getD_cons_succ]
    · rw [if_neg hr] at h
      simp only [Prod.mk.injEq] at h
      obtain ⟨h1, h2, h3⟩ := h
      subst h1; subst h2; subst h3
      refine ⟨by simp, by simp, by simp, ?_, by simp, by simp, ?_, by simp⟩
      · intro hok
        cases hok
      · intro _
        refine ⟨by simp [List.getD_cons_zero], ?_⟩
        intro j hj
        cases j with
        | zero => omega
        | succ j2 => simp [List.getD_cons_succ]

theorem mkChainSteps_map_agent (message : String) : ∀ (i : Nat) (agents : List String),
    (mkChainSteps message i agents).map WorkflowStep.agent_id = agents := by
  intro i agents
  induction agents generalizing i with
  | nil => simp [mkChainSteps]
  | cons a rest ih => simp [mkChainSteps, ih]

theorem mkChainSteps_getD_status (message : String) :
    ∀ (agents : List String) (i j : Nat),
    ((mkChainSteps message i agents).getD j dummyStep).status = "pending" := by
  intro agents
  induction agents with
  | nil => intro i j; simp [mkChainSteps, dummyStep]
  | cons a rest ih =>
    intro i j
    cases j with
    | zero => simp [mkChainSteps, List.getD_cons_zero]
    | succ j2 => simp only [mkChainSteps, List.getD_cons_succ]; exact ih (i + 1) j2

/-- C5: workflow execution invariants.  Steps execute strictly in index
order; the data routed to step i > 0 is exactly the output recorded for
step i - 1; the workflow status becomes failed as soon as any step fails,
with no later step executed (later steps stay pending); and the status
becomes completed only when every step has reached completed. -/
theorem c5_workflow_invariants (agents : List String)
    (message requester room wfid : String) (t0 : DateTime) (route : Nat → Bool) :
    let w := createChainWorkflow agents message requester room wfid t0
    let res := executeWorkflow route w
    res.2.map Prod.fst = agents.take res.2.length
    ∧ (∀ i, 0 < i → i < res.2.length →
        (res.2.getD i ("", none)).2 = ((res.1.steps.getD (i - 1) dummyStep).output))
    ∧ (∀ i, i < res.1.steps.length →
        (res.1.steps.getD i dummyStep).status = "failed" →
        res.1.status = "failed" ∧ i = res.2.length ∧
        ∀ j, i < j → (res.1.steps.getD j dummyStep).status = "pending")
    ∧ (res.1.status = "completed" → ∀ s ∈ res.1.steps, s.status = "completed") := by
  intro w res
  rcases hE : execLoop route 0 none w.steps with ⟨steps2, log, ok⟩
  obtain ⟨e1, e2, e3, e4, e5, e6, e7, e8⟩ :=
    execLoop_spec w.steps route 0 none steps2 log ok hE
  have hsteps : res.1.steps = steps2 := by
    show (executeWorkflow route w).1.steps = steps2
    unfold executeWorkflow
    rw [hE]
  have hlog : res.2 = log := by
    show (executeWorkflow route w).2 = log
    unfold executeWorkflow
    rw [hE]
  have hstat : res.1.status = if ok then "completed" else "failed" := by
    show (executeWorkflow route w).1.status = _
    unfold executeWorkflow
    rw [hE]
  have hagents : w.steps.map WorkflowStep.agent_id = agents := by
    show (createChainWorkflow agents message requester room wfid t0).steps.map
      WorkflowStep.agent_id = agents
    unfold createChainWorkflow
    exact mkChainSteps_map_agent message 0 agents
  have hpend : ∀ j, (w.steps.getD j dummyStep).status = "pending" := by
    intro j
    show ((createChainWorkflow agents message requester room wfid t0).steps.getD j
      dummyStep).status = "pending"
    unfold createChainWorkflow
    exact mkChainSteps_getD_status message agents 0 j
  refine ⟨?_, ?_, ?_, ?_⟩
  · rw [hlog, ← hagents]
    exact e3
  · intro i hi0 hilen
    rw [hlog] at hilen ⊢
    rw [hsteps]
    have := e8 i hilen
    rw [this, if_neg (by omega)]
  · intro i hilen hfail
    rw [hsteps] at hilen hfail
    rw [hstat, hlog, hsteps]
    cases hok : ok with
    | true =>
      exfalso
      have hcomp := (e6 i (by rw [e4 hok]; rw [e1] at hilen; exact hilen)).1
      rw [hcomp] at hfail
      simp at hfail
    | false =>
      obtain ⟨f1, f2⟩ := e7 hok
      have hieq : i = log.length := by
        rcases Nat.lt_trichotomy i log.length with hlt | heq | hgt
        · exfalso
          have hcomp := (e6 i hlt).1
          rw [hcomp] at hfail
          simp at hfail
        · exact heq
        · exfalso
          have := f2 i hgt
          rw [this] at hfail
          rw [hpend i] at hfail
          simp at hfail
      refine ⟨rfl, hieq, ?_⟩
      intro j hj
      rw [f2 j (by omega), hpend j]
  · intro hdone
    rw [hstat] at hdone
    have hok : ok = true := by
      cases hok2 : ok with
      | true => rfl
      | false => rw [hok2] at hdone; simp at hdone
    rw [hsteps]
    intro s hs
    obtain ⟨j, hjlt, hjs⟩ := List.mem_iff_getElem.mp hs
    have := (e6 j (by rw [e4 hok, ← e1]; exact hjlt)).1
    rw [List.getD_eq_getElem steps2 dummyStep hjlt, hjs] at this
    exact this

/-- The chain command handler passes the discovery counter through
untouched and nothing it computes depends on it. -/
theorem handleChainCommand_stats (cmd room sender : String) (now : DateTime)
    (wfid : String) (st : OrchState) (s : Nat) :
    handleChainCommand cmd room sender now wfid { st with agents_discovered := s } =
      ({ (handleChainCommand cmd room sender now wfid st).1 with
          agents_discovered := s },
       (handleChainCommand cmd room sender now wfid st).2) := by
  unfold handleChainCommand
  by_cases h1 : (findSub ['-', '>'] (pyStrip (cmd.drop 5)).data).isNone = true
  · rw [if_pos h1, if_pos h1]
  · rw [if_neg h1, if_neg h1]
    rcases splitFirstSpace (pyStrip (cmd.drop 5)) with _ | ⟨a, _ | ⟨b, _ | ⟨c, rest⟩⟩⟩
    · rfl
    · rfl
    · simp only []
      by_cases h2 : (chainAgents a).filter
          (fun x => ! agentOnlineIn { st with agents_discovered := s } x now) ≠ []
      · rw [if_pos h2, if_pos (by exact h2)]
        rfl
      · rw [if_neg h2, if_neg (by exact h2)]
    · rfl

/-- Witness: C5 at a concrete 2-agent chain with both steps succeeding -
step 1's routed input equals step 0's recorded output exactly. -/
theorem c5_workflow_invariants_witness :
    ((executeWorkflow (fun _ => true)
        (createChainWorkflow ["a", "b"] "msg" "u" "r" "wf" { micros := 3 })).2.getD 1
        ("", none)).2 =
      ((executeWorkflow (fun _ => true)
        (createChainWorkflow ["a", "b"] "msg" "u" "r" "wf" { micros := 3 })).1.steps.getD 0
        dummyStep).output :=
  (c5_workflow_invariants ["a", "b"] "msg" "u" "r" "wf" { micros := 3 }
    (fun _ => true)).2.1 1 (by decide) (by decide)

/-! ### Claim C1 (registry liveness vs stored status) -/

/-- A registered agent as stored after an agent_online announcement. -/
def c1Agent : RegisteredAgent :=
  { agent_id := "alpha", display_name := "Alpha", capabilities := ["x"],
    status := "online", last_seen := { micros := 1000 }, user_id := "@alpha:hs" }

def c1State : OrchState :=
  { agents := [("alpha", c1Agent)], capability_map := [("x", ["alpha"])],
    active_workflows := [], messages_routed := 0, workflows_completed := 0,
    agents_discovered := 1 }

/-- The agent_offline envelope for alpha. -/
def c1OffMsg : AgentMessage :=
  { id := "m9", sender := "@alpha:hs", target := "orchestrator",
    message_type := "agent_offline",
    content := .obj [("agent_id", .str "alpha")],
    context := .obj [], timestamp := { micros := 2000 } }

/-- C1: the spec says is_online(A, T) is status online AND recency, so that
after register_offline(A) it is false regardless of recency.  The code's
RegisteredAgent.is_online reads only last_seen: right after processing
agent_offline for alpha the stored status is "offline", yet is_online
still returns true at the same instant.  The stored status field is never
read by any liveness check, so the offline handler has no observable
effect on liveness - contradicting the spec and the evident purpose of
_handle_agent_offline. -/
theorem c1_is_online_ignores_status :
    (alistLookup "alpha" (handleAgentOffline c1OffMsg c1State).agents).map
        (fun r => (r.status, r.is_online { micros := 2000 } 5)) =
      some ("offline", true) := rfl

/-! ### Claim C2 (reply-correlated step completion) -/

def c2Workflow : Workflow :=
  createChainWorkflow ["search", "llm", "email"] "do the thing" "@user:hs"
    "!room" "wf1" { micros := 500 }

/-- C2: the spec says the loop advances only on a correlated _response
envelope and otherwise fails the step, leaving later steps pending.  The
code's _execute_workflow consumes no replies at all (the model therefore
has no reply input): with routing succeeding and no reply ever arriving
for any step, every step is still marked completed with a fabricated
placeholder output and the workflow ends "completed", not "failed". -/
theorem c2_executor_ignores_replies :
    (executeWorkflow (fun _ => true) c2Workflow).1.status = "completed" ∧
    ((executeWorkflow (fun _ => true) c2Workflow).1.steps.map
        (fun s => (s.status, s.output))) =
      [("completed", some (placeholderOutput "search")),
       ("completed", some (placeholderOutput "llm")),
       ("completed", some (placeholderOutput "email"))] := ⟨rfl, rfl⟩

/-! ### Claim C3 (envelope round trip) -/

def c3GoodMsg : AgentMessage :=
  { id := "m1", sender := "orch", target := "llm",
    message_type := "user_request",
    content := .obj [("text", .str "hi")],
    context := .obj [("request_id", .str "r1")],
    timestamp := { micros := 7 }, reply_to := none }

def c3BadMsg : AgentMessage := { c3GoodMsg with target := "x: \x7by" }

set_option maxRecDepth 40000 in
/-- C3 counterexample: for a message whose target contains ": {", the
decoder misparses the wire text produced for it (the separator search
finds an occurrence inside the target), so the round trip fails: decode
returns "not an envelope" instead of the message. -/
theorem c3_roundtrip_counterexample :
    c3BadMsg.target = "x: \x7by" ∧
    decodeEnvelope (encodeAgentMessage c3BadMsg) = none := ⟨rfl, rfl⟩

/-- C3 as amended: for every AgentMessage whose content and context are
representable in the serialization format (the Json model) and whose
target does not contain the separator ": {", decoding the encoded wire
text yields the wire target and a message equal in all eight fields. -/
theorem c3_roundtrip_amended (m : AgentMessage)
    (h : findSub sepPat m.target.data = none) :
    decodeEnvelope (encodeAgentMessage m) = some (m.target, m) :=
  decode_encode m h

set_option maxRecDepth 40000 in
/-- Witness: the amended C3 at a concrete message. -/
theorem c3_roundtrip_witness :
    decodeEnvelope (encodeAgentMessage c3GoodMsg) =
      some (c3GoodMsg.target, c3GoodMsg) :=
  c3_roundtrip_amended c3GoodMsg rfl

/-! ### Claim C9 (discovery counter) -/

def c9Agent : RegisteredAgent :=
  { agent_id := "beta", display_name := "Beta", capabilities := ["y"],
    status := "online", last_seen := { micros := 10 }, user_id := "@beta:hs" }

def c9State : OrchState :=
  { agents := [("beta", c9Agent)], capability_map := [("y", ["beta"])],
    active_workflows := [], messages_routed := 0, workflows_completed := 0,
    agents_discovered := 3 }

def c9OffMsg : AgentMessage :=
  { id := "m2", sender := "@beta:hs", target := "orchestrator",
    message_type := "agent_offline",
    content := .obj [("agent_id", .str "beta")],
    context := .obj [], timestamp := { micros := 20 } }

/-- C9 counterexample: processing an agent_offline message for a
registered agent takes effect (the status flips to offline) but leaves
the discovery counter unchanged, while the claim requires the counter to
increase by exactly one on every register_offline call. -/
theorem c9_offline_does_not_increment :
    (handleAgentOffline c9OffMsg c9State).agents_discovered = 3 ∧
    (alistLookup "beta" (handleAgentOffline c9OffMsg c9State).agents).map
        RegisteredAgent.status = some "offline" := ⟨rfl, rfl⟩

/-- C9 as amended: only register_online increments the discovery counter,
by exactly one per successfully processed agent_online payload (malformed
payloads leave the state unchanged via the caught-exception path);
register_offline never changes it; and the counter value never influences
the chain command's routing decisions - both the replies sent and the
workflow table produced are identical for any two counter values. -/
theorem c9_discovery_counter_amended (m : AgentMessage) (now : DateTime)
    (st : OrchState) (s1 s2 : Nat) (cmd room sender wfid : String) :
    (handleAgentOffline m st).agents_discovered = st.agents_discovered
    ∧ (handleAgentOnline m now st).agents_discovered =
        (if (presenceInfo m.content).isSome then st.agents_discovered + 1
         else st.agents_discovered)
    ∧ (handleChainCommand cmd room sender now wfid
         { st with agents_discovered := s1 }).2 =
      (handleChainCommand cmd room sender now wfid
         { st with agents_discovered := s2 }).2
    ∧ (handleChainCommand cmd room sender now wfid
         { st with agents_discovered := s1 }).1.active_workflows =
      (handleChainCommand cmd room sender now wfid
         { st with agents_discovered := s2 }).1.active_workflows := by
  refine ⟨?_, ?_, ?_, ?_⟩ <;> try skip
  · unfold handleAgentOffline
    cases offlineTarget m with
    | none => rfl
    | some aid =>
      simp only []
      cases alistLookup aid st.agents with
      | none => rfl
      | some r => rfl
  · unfold handleAgentOnline
    cases presenceInfo m.content with
    | none => rfl
    | some info => rfl
  · rw [handleChainCommand_stats cmd room sender now wfid st s1,
      handleChainCommand_stats cmd room sender now wfid st s2]
  · rw [handleChainCommand_stats cmd room sender now wfid st s1,
      handleChainCommand_stats cmd room sender now wfid st s2]

/-! ### Claim C4 (envelope classifier totality) -/

theorem handleAgentMessage_ne_user (selfId freshId : String) (now : DateTime)
    (handlers : List String) (body b2 : String) :
    handleAgentMessage selfId freshId now handlers body ≠ .userMessage b2 := by
  unfold handleAgentMessage
  cases hext : extractParts body.data with
  | none => simp
  | some tj =>
    obtain ⟨t, j⟩ := tj
    simp only []
    split
    · simp
    · cases hload : loads j with
      | none => simp
      | some jv =>
        simp only []
        cases hfd : fromDict jv with
        | none => simp
        | some m =>
          simp only [dispatchDecoded]
          split <;> simp

set_option maxRecDepth 4000 in
/-- C4 counterexample: the classifier _is_agent_message accepts any text
of the shape at-target, ": ", JSON - it never checks the required
AgentMessage fields.  The near-match "@x: {}" (valid JSON, required
fields absent) is classified as an envelope, and its dispatch ends in the
caught-exception path rather than being handed to the plain user-message
handler as the claim requires. -/
theorem c4_classifier_counterexample :
    isAgentMessage "@x: {}" = true ∧
    onMessage "@u1:hs" "x" "f1" { micros := 0 } ["agent_online"] "@u2:hs" "@x: {}" =
      .decodeError := ⟨rfl, rfl⟩

/-- C4 as amended: the classifier and dispatch are total functions; for a
sender other than the agent itself, the raw body is handed to the plain
user-message handler exactly when _is_agent_message rejects it (body not
starting with @, no ": {" separator, or non-JSON payload).  Near-matches
that parse as JSON but lack the required fields are classified as
envelopes and end in the caught-decode-error path, not the user path. -/
theorem c4_classifier_amended (selfUser selfId freshId : String) (now : DateTime)
    (handlers : List String) (sender body : String) (hs : sender ≠ selfUser) :
    onMessage selfUser selfId freshId now handlers sender body = .userMessage body
      ↔ isAgentMessage body = false := by
  unfold onMessage
  rw [if_neg hs]
  cases hcl : isAgentMessage body with
  | false => simp
  | true =>
    rw [if_pos rfl]
    constructor
    · intro h
      exact absurd h (handleAgentMessage_ne_user selfId freshId now handlers body body)
    · intro h
      cases h

/-- Witness: plain chat text goes to the user-message path. -/
theorem c4_classifier_witness :
    onMessage "@o:hs" "orch" "f1" { micros := 0 } [] "@u:hs" "hello" =
      .userMessage "hello" :=
  (c4_classifier_amended "@o:hs" "orch" "f1" { micros := 0 } [] "@u:hs" "hello"
    (by decide)).mpr rfl

/-! ### Claim C6 (unknown message type reply) -/

theorem printJson_toDict_head (m : AgentMessage) :
    ∃ l, printJson m.toDict = '{' :: l := by
  unfold AgentMessage.toDict
  exact ⟨_, printJson_obj _⟩

/-- C6: a decoded envelope accepted by a recipient whose message_type has
no registered handler produces exactly one reply envelope, addressed to
the original sender, with the _response-suffixed type, context.reply_to
equal to the original id and an error field naming the unknown type. -/
theorem c6_unknown_type_reply (handlers : List String) (selfId freshId : String)
    (now : DateTime) (m : AgentMessage)
    (hno : m.message_type ∉ handlers)
    (htgt : m.target = selfId ∨ m.target = "room")
    (hclean : findSub sepPat m.target.data = none) :
    outcomeReplies (handleAgentMessage selfId freshId now handlers
        (encodeAgentMessage m)) =
      [mkUnknownReply selfId freshId now m]
    ∧ (mkUnknownReply selfId freshId now m).target = m.sender
    ∧ (mkUnknownReply selfId freshId now m).message_type =
        m.message_type ++ "_response"
    ∧ (mkUnknownReply selfId freshId now m).context = .obj [("reply_to", .str m.id)]
    ∧ (mkUnknownReply selfId freshId now m).content =
        .obj [("error", .str ("Unknown message type: " ++ m.message_type))] := by
  refine ⟨?_, rfl, rfl, rfl, rfl⟩
  obtain ⟨l, hl⟩ := printJson_toDict_head m
  unfold handleAgentMessage
  rw [encode_data m, extractParts_wire m.target.data (printJson m.toDict) l hl hclean]
  simp only []
  rw [if_neg (show ¬ (String.mk m.target.data ≠ selfId ∧
      String.mk m.target.data ≠ "room") by
    rcases htgt with h | h <;>
      simp [show String.mk m.target.data = m.target from rfl, h])]
  rw [show String.mk (printJson m.toDict) = dumps m.toDict from rfl, loads_dumps]
  simp only []
  rw [fromDict_toDict]
  simp only [dispatchDecoded]
  rw [if_neg hno]
  rfl

def c6Msg : AgentMessage :=
  { id := "q1", sender := "llm", target := "orch",
    message_type := "bogus_type", content := .null, context := .obj [],
    timestamp := { micros := 4 }, reply_to := none }

set_option maxRecDepth 40000 in
/-- Witness: C6 at a concrete envelope with an unregistered type. -/
theorem c6_unknown_type_reply_witness :
    outcomeReplies (handleAgentMessage "orch" "f2" { micros := 5 } ["agent_online"]
        (encodeAgentMessage c6Msg)) =
      [mkUnknownReply "orch" "f2" { micros := 5 } c6Msg] :=
  (c6_unknown_type_reply ["agent_online"] "orch" "f2" { micros := 5 } c6Msg
    (by decide) (Or.inl rfl) rfl).1

/-! ### Claim C7 (self-messages and foreign targets are silent) -/

/-- C7: an event from the agent's own user is dropped with no handler and
no reply, and a decoded envelope whose wire target is neither this agent
nor the broadcast keyword is silently ignored, with no handler invocation
and no reply. -/
theorem c7_self_and_foreign_silence (selfUser selfId freshId : String)
    (now : DateTime) (handlers : List String) (sender body : String) :
    (sender = selfUser →
      onMessage selfUser selfId freshId now handlers sender body = .droppedSelf
      ∧ outcomeReplies (onMessage selfUser selfId freshId now handlers sender body) = []
      ∧ outcomeHandler (onMessage selfUser selfId freshId now handlers sender body) = none)
    ∧ (∀ target jsonPart, sender ≠ selfUser →
        extractParts body.data = some (target, jsonPart) →
        target ≠ selfId → target ≠ "room" →
        isAgentMessage body = true →
        onMessage selfUser selfId freshId now handlers sender body =
          .ignoredOtherTarget target
        ∧ outcomeReplies (onMessage selfUser selfId freshId now handlers sender body) = []
        ∧ outcomeHandler (onMessage selfUser selfId freshId now handlers sender body) = none) := by
  constructor
  · intro h
    have hout : onMessage selfUser selfId freshId now handlers sender body =
        .droppedSelf := by
      unfold onMessage
      rw [if_pos h]
    exact ⟨hout, by rw [hout]; rfl, by rw [hout]; rfl⟩
  · intro target jsonPart hs hext ht1 ht2 hcl
    have hout : onMessage selfUser selfId freshId now handlers sender body =
        .ignoredOtherTarget target := by
      unfold onMessage
      rw [if_neg hs, if_pos hcl]
      unfold handleAgentMessage
      rw [hext]
      simp only []
      rw [if_pos ⟨ht1, ht2⟩]
    exact ⟨hout, by rw [hout]; rfl, by rw [hout]; rfl⟩

set_option maxRecDepth 4000 in
/-- Witness: C7 at a self-sent event and at a foreign-target envelope. -/
theorem c7_silence_witness :
    onMessage "@me:hs" "orch" "f3" { micros := 0 } [] "@me:hs" "hi" = .droppedSelf
    ∧ onMessage "@me:hs" "x" "f3" { micros := 0 } [] "@u:hs" "@z: {}" =
        .ignoredOtherTarget "z" :=
  ⟨((c7_self_and_foreign_silence "@me:hs" "orch" "f3" { micros := 0 } [] "@me:hs"
      "hi").1 rfl).1,
   ((c7_self_and_foreign_silence "@me:hs" "x" "f3" { micros := 0 } [] "@u:hs"
      "@z: {}").2 "z" "{}" (by decide) rfl (by decide) (by decide) rfl).1⟩

/-! ### Claim C8 (chain creation gated on liveness) -/

/-- C8: the chain command creates a Workflow record only if every agent
in the "->"-delimited chain satisfies is_online; on any unknown or stale
agent the chain is rejected with a not-available reply naming the missing
agents, and the registry and workflow table are unchanged. -/
theorem c8_chain_gate (command room_id sender : String) (now : DateTime)
    (wfid : String) (st : OrchState) :
    (handleChainCommand command room_id sender now wfid st).1.agents = st.agents
    ∧ (handleChainCommand command room_id sender now wfid st).1.capability_map =
        st.capability_map
    ∧ (∀ agents message, chainParse command = some (agents, message) →
        (∃ a ∈ agents, agentOnlineIn st a now = false) →
        (handleChainCommand command room_id sender now wfid st).1 = st
        ∧ (handleChainCommand command room_id sender now wfid st).2 =
            [.notAvailable (agents.filter (fun a => ! agentOnlineIn st a now))])
    ∧ (∀ wid w, alistLookup wid
          (handleChainCommand command room_id sender now wfid st).1.active_workflows =
          some w →
        alistLookup wid st.active_workflows = some w ∨
        ∃ agents message, chainParse command = some (agents, message) ∧
          ∀ a ∈ agents, agentOnlineIn st a now = true) := by
  unfold handleChainCommand chainParse
  by_cases h1 : (findSub ['-', '>'] (pyStrip (command.drop 5)).data).isNone = true
  · rw [if_pos h1, if_pos h1]
    refine ⟨rfl, rfl, ?_, ?_⟩
    · intro agents message hp
      cases hp
    · intro wid w hw
      exact Or.inl hw
  · rw [if_neg h1, if_neg h1]
    rcases splitFirstSpace (pyStrip (command.drop 5)) with _ | ⟨a, _ | ⟨b, _ | ⟨c, r⟩⟩⟩
    · refine ⟨rfl, rfl, ?_, ?_⟩
      · intro agents message hp
        cases hp
      · intro wid w hw
        exact Or.inl hw
    · refine ⟨rfl, rfl, ?_, ?_⟩
      · intro agents message hp
        cases hp
      · intro wid w hw
        exact Or.inl hw
    · simp only []
      by_cases h2 : (chainAgents a).filter (fun x => ! agentOnlineIn st x now) ≠ []
      · rw [if_pos h2]
        refine ⟨rfl, rfl, ?_, ?_⟩
        · intro agents message hp hbad
          have h3 : agents = chainAgents a ∧ message = b := by
            injection hp with hp2
            injection hp2 with hp3 hp4
            exact ⟨hp3.symm, hp4.symm⟩
          obtain ⟨rfl, rfl⟩ := h3
          exact ⟨rfl, rfl⟩
        · intro wid w hw
          exact Or.inl hw
      · rw [if_neg h2]
        have hall : ∀ x ∈ chainAgents a, agentOnlineIn st x now = true := by
          intro x hx
          by_contra hxn
          have hmem : x ∈ (chainAgents a).filter
              (fun x => ! agentOnlineIn st x now) := by
            rw [List.mem_filter]
            exact ⟨hx, by simp [Bool.eq_false_iff.mpr hxn]⟩
          rw [Decidable.not_not.mp h2] at hmem
          cases hmem
        refine ⟨rfl, rfl, ?_, ?_⟩
        · intro agents message hp hbad
          have h3 : agents = chainAgents a ∧ message = b := by
            injection hp with hp2
            injection hp2 with hp3 hp4
            exact ⟨hp3.symm, hp4.symm⟩
          obtain ⟨rfl, rfl⟩ := h3
          obtain ⟨a0, ha0, ha0f⟩ := hbad
          rw [hall a0 ha0] at ha0f
          cases ha0f
        · intro wid w hw
          exact Or.inr ⟨chainAgents a, b, rfl, hall⟩
    · refine ⟨rfl, rfl, ?_, ?_⟩
      · intro agents message hp
        cases hp
      · intro wid w hw
        exact Or.inl hw

def c8Agent : RegisteredAgent :=
  { agent_id := "llm", display_name := "LLM", capabilities := ["chat"],
    status := "online", last_seen := { micros := 100 }, user_id := "@llm:hs" }

def c8State : OrchState :=
  { agents := [("llm", c8Agent)], capability_map := [("chat", ["llm"])],
    active_workflows := [], messages_routed := 0, workflows_completed := 0,
    agents_discovered := 1 }

set_option maxRecDepth 4000 in
/-- Witness: a chain naming an unregistered agent is rejected with no
workflow created. -/
theorem c8_chain_gate_witness :
    (handleChainCommand "chain llm->search go" "!r" "@u:hs" { micros := 200 }
        "wf9" c8State).1 = c8State
    ∧ (handleChainCommand "chain llm->search go" "!r" "@u:hs" { micros := 200 }
        "wf9" c8State).2 =
      [.notAvailable ((["llm", "search"] : List String).filter
        (fun a => ! agentOnlineIn c8State a { micros := 200 }))] :=
  (c8_chain_gate "chain llm->search go" "!r" "@u:hs" { micros := 200 } "wf9"
    c8State).2.2.1 ["llm", "search"] "go" rfl
    ⟨"search", by decide, rfl⟩

/-! ### Claim C10 (registry frame effects) -/

/-- C10: processing agent_offline for a registered agent mutates only
that agent's status (set to "offline"): every other field of the entry,
every other entry, the capability map, the workflow table and the
counters are untouched; and no registry operation ever removes an agent
from the table or an agent id from a capability set - handleAgentOnline
only inserts or overwrites entries and only grows capability sets. -/
theorem c10_registry_frame (m : AgentMessage) (now : DateTime) (st : OrchState) :
    (handleAgentOffline m st).capability_map = st.capability_map
    ∧ (handleAgentOffline m st).active_workflows = st.active_workflows
    ∧ (handleAgentOffline m st).agents_discovered = st.agents_discovered
    ∧ (∀ aid r, alistLookup aid st.agents = some r → offlineTarget m ≠ some aid →
        alistLookup aid (handleAgentOffline m st).agents = some r)
    ∧ (∀ aid r, offlineTarget m = some aid → alistLookup aid st.agents = some r →
        alistLookup aid (handleAgentOffline m st).agents =
          some { r with status := "offline" })
    ∧ (∀ aid, (alistLookup aid (handleAgentOffline m st).agents).isSome =
        (alistLookup aid st.agents).isSome)
    ∧ (∀ aid, (alistLookup aid st.agents).isSome = true →
        (alistLookup aid (handleAgentOnline m now st).agents).isSome = true)
    ∧ (∀ c s, alistLookup c st.capability_map = some s →
        ∃ s2, alistLookup c (handleAgentOnline m now st).capability_map = some s2
          ∧ ∀ x ∈ s, x ∈ s2) := by
  have hoff : ∀ (P : OrchState → Prop),
      (P st) →
      (∀ aid r, offlineTarget m = some aid → alistLookup aid st.agents = some r →
        P { st with agents :=
          alistInsert aid ({ r with status := "offline" }) st.agents }) →
      P (handleAgentOffline m st) := by
    intro P hbase hins
    unfold handleAgentOffline
    cases hot : offlineTarget m with
    | none => exact hbase
    | some aid =>
      simp only []
      cases hreg : alistLookup aid st.agents with
      | none => exact hbase
      | some r => exact hins aid r hot hreg
  refine ⟨?_, ?_, ?_, ?_, ?_, ?_, ?_, ?_⟩
  · exact hoff (fun s2 => s2.capability_map = st.capability_map) rfl
      (fun _ _ _ _ => rfl)
  · exact hoff (fun s2 => s2.active_workflows = st.active_workflows) rfl
      (fun _ _ _ _ => rfl)
  · exact hoff (fun s2 => s2.agents_discovered = st.agents_discovered) rfl
      (fun _ _ _ _ => rfl)
  · intro aid r hl hne
    refine hoff (fun s2 => alistLookup aid s2.agents = some r) hl ?_
    intro aid2 r2 hot hreg
    have hne2 : aid ≠ aid2 := by
      intro he
      rw [he] at hne
      exact hne hot
    simp only []
    rw [alistLookup_insert_ne aid aid2 _ st.agents hne2]
    exact hl
  · intro aid r hot hl
    unfold handleAgentOffline
    rw [hot]
    simp only []
    rw [hl]
    simp only []
    rw [alistLookup_insert_self]
  · intro aid
    refine hoff (fun s2 => (alistLookup aid s2.agents).isSome =
      (alistLookup aid st.agents).isSome) rfl ?_
    intro aid2 r2 hot hreg
    simp only []
    by_cases he : aid = aid2
    · subst he
      rw [alistLookup_insert_self, hreg]
      rfl
    · rw [alistLookup_insert_ne aid aid2 _ st.agents he]
  · intro aid hs
    unfold handleAgentOnline
    cases hp : presenceInfo m.content with
    | none => exact hs
    | some info =>
      obtain ⟨aid2, dn, caps, stt⟩ := info
      simp only []
      by_cases he : aid = aid2
      · subst he
        rw [alistLookup_insert_self]
        rfl
      · rw [alistLookup_insert_ne aid aid2 _ st.agents he]
        exact hs
  · intro c s hl
    unfold handleAgentOnline
    cases hp : presenceInfo m.content with
    | none => exact ⟨s, hl, fun x hx => hx⟩
    | some info =>
      obtain ⟨aid2, dn, caps, stt⟩ := info
      simp only []
      exact foldl_addCapability_mono aid2 caps st.capability_map c s hl

def c10Agent : RegisteredAgent :=
  { agent_id := "gamma", display_name := "Gamma", capabilities := ["z"],
    status := "online", last_seen := { micros := 30 }, user_id := "@g:hs" }

def c10State : OrchState :=
  { agents := [("gamma", c10Agent)], capability_map := [("z", ["gamma"])],
    active_workflows := [], messages_routed := 0, workflows_completed := 0,
    agents_discovered := 1 }

def c10OffMsg : AgentMessage :=
  { id := "m3", sender := "@g:hs", target := "orchestrator",
    message_type := "agent_offline",
    content := .obj [("agent_id", .str "gamma")],
    context := .obj [], timestamp := { micros := 40 } }

/-- Witness: C10 at a concrete registry. -/
theorem c10_registry_frame_witness :
    (handleAgentOffline c10OffMsg c10State).capability_map = c10State.capability_map
    ∧ alistLookup "gamma" (handleAgentOffline c10OffMsg c10State).agents =
        some { c10Agent with status := "offline" } :=
  ⟨(c10_registry_frame c10OffMsg { micros := 50 } c10State).1,
   (c10_registry_frame c10OffMsg { micros := 50 } c10State).2.2.2.2.1 "gamma"
     c10Agent rfl rfl⟩

end HomelabAgents
